import Mathlib

/-!
# VerletPhysics: a shallow embedding of `src/Main.cpp`

The simulation core of the program (`GameState::Update`, `GameState::OnMouseButton`)
is embedded over an arbitrary linearly ordered field `K` standing for exact
arithmetic.  The square root used by `glm::length` and `glm::normalize` is a
parameter `sqrt : K → K`; theorems that depend on its value assume `IsSqrt sqrt`,
which `Real.sqrt` satisfies on `ℝ`.  All definitions are computable and can be run
on `ℚ` with `Rat.sqrt`.

Division is the field division of `K`, with `x / 0 = 0`; the program computes in
`float`, where a division by zero gives an infinity or a NaN.  The two agree
whenever the divisor is not zero.  `inversesqrtChecked` and `normalizeChecked`
make the division by zero in `glm::normalize` explicit.

The accumulator `time` of `Update` is the one place where rounding decides a
discrete outcome, the number of iterations of the `while` loop.  There the `float`
operations are modelled with their rounding: `round32` is the rounding of IEEE 754
binary32, `FixedUpdateTime32 = round32 (1 / 60)` is the constant the loop compares
with and subtracts, and the loop takes a bound `fuel` on its iterations, since with
rounding it need not exit.
-/

namespace VerletPhysics

/-! ## Vectors (`glm::vec2`, `glm::vec3`) -/

/-- The type `glm::vec2`. -/
structure Vec2 (K : Type) where
  x : K
  y : K
deriving DecidableEq, Repr

/-- The type `glm::vec3`, used only for the display colour. -/
structure Vec3 (K : Type) where
  r : K
  g : K
  b : K
deriving DecidableEq, Repr

namespace Vec2

variable {K : Type} [LinearOrderedField K]

/-- Componentwise sum, `operator+` of `glm::vec2`. -/
def add (a b : Vec2 K) : Vec2 K := ⟨a.x + b.x, a.y + b.y⟩

/-- Componentwise difference, `operator-` of `glm::vec2`. -/
def sub (a b : Vec2 K) : Vec2 K := ⟨a.x - b.x, a.y - b.y⟩

/-- Vector times scalar, `operator*(vec2, float)`. -/
def scale (a : Vec2 K) (s : K) : Vec2 K := ⟨a.x * s, a.y * s⟩

/-- Vector divided by scalar, `operator/(vec2, float)`: each component is divided. -/
def divScalar (a : Vec2 K) (s : K) : Vec2 K := ⟨a.x / s, a.y / s⟩

/-- The function `glm::dot` on `vec2`. -/
def dot (a b : Vec2 K) : K := a.x * b.x + a.y * b.y

/-- The function `glm::length`: `sqrt(dot(v, v))`. -/
def length (sqrt : K → K) (v : Vec2 K) : K := sqrt (dot v v)

/-- The function `glm::inversesqrt`: `1 / sqrt(x)`. -/
def inversesqrt (sqrt : K → K) (x : K) : K := 1 / sqrt x

/-- The function `glm::normalize`: `v * inversesqrt(dot(v, v))`. -/
def normalize (sqrt : K → K) (v : Vec2 K) : Vec2 K := scale v (inversesqrt sqrt (dot v v))

/-- The function `glm::inversesqrt` with its division made explicit: no value when
the divisor `sqrt(x)` is zero. -/
def inversesqrtChecked (sqrt : K → K) (x : K) : Option K :=
  if sqrt x = 0 then none else some (1 / sqrt x)

/-- The function `glm::normalize` with its division made explicit: no value for a
vector whose length is zero. -/
def normalizeChecked (sqrt : K → K) (v : Vec2 K) : Option (Vec2 K) :=
  (inversesqrtChecked sqrt (dot v v)).map (fun s => scale v s)

/-- The function `glm::distance`: `length(p1 - p0)`. -/
def distance (sqrt : K → K) (p0 p1 : Vec2 K) : K := length sqrt (sub p1 p0)

end Vec2

/-- The exact square root on the non-negative elements of `K`. -/
def IsSqrt {K : Type} [LinearOrderedField K] (sqrt : K → K) : Prop :=
  ∀ x, 0 ≤ x → 0 ≤ sqrt x ∧ sqrt x * sqrt x = x

/-! ## Data model -/

/-- The type `enum struct MouseButton`. -/
inductive MouseButton where
  | Left
  | Middle
  | Right
deriving DecidableEq, Repr

/-- The type `struct Circle`. -/
structure Circle (K : Type) where
  Position : Vec2 K
  PrevPosition : Vec2 K
  Radius : K
  Mass : K
  Color : Vec3 K
  HasPhysics : Bool := true
deriving DecidableEq, Repr

/-- The simulation fields of `class GameState`.  `SelectedCircle` is the index in
`Circles` of the circle the pointer `Circle*` refers to.  `MouseWorldPos` is the value
of `GetMouseWorldPos()`, a function of the window size, the mouse pixel position and
the camera, none of which `Update` or `OnMouseButton` writes. -/
structure GameState (K : Type) where
  time : K
  Circles : List (Circle K)
  SelectedCircle : Option Nat
  SelectedCircleOffset : Vec2 K
  MouseWorldPos : Vec2 K

section Simulation

variable {K : Type} [LinearOrderedField K]

/-- The constant `FixedUpdateTime = 1.0f / 60.0f`. -/
def FixedUpdateTime : K := 1 / 60

/-- The constant `Gravity = 0.1f`. -/
def Gravity : K := 1 / 10

/-- The constant `ConstraintIterations = 8`. -/
def ConstraintIterations : Nat := 8

/-- The constant `ConstraintRadius = 1.0f`. -/
def ConstraintRadius : K := 1

/-- Body of the integration loop (lines 88-97) for one circle. -/
def integrate (circle : Circle K) : Circle K :=
  if !circle.HasPhysics then circle
  else
    let velocity := Vec2.sub circle.Position circle.PrevPosition
    let c1 := { circle with PrevPosition := circle.Position }
    let c2 := { c1 with Position := Vec2.add c1.Position velocity }
    { c2 with Position := ⟨c2.Position.x, c2.Position.y - Gravity * FixedUpdateTime⟩ }

/-- The boundary constraint (lines 112-115) on one circle. -/
def boundary (sqrt : K → K) (circleA : Circle K) : Circle K :=
  let length := Vec2.length sqrt circleA.Position
  if length ≥ ConstraintRadius - circleA.Radius then
    { circleA with Position := Vec2.divScalar circleA.Position (length + circleA.Radius) }
  else circleA

/-- Resolution of one pair (lines 122-134). -/
def resolvePair (sqrt : K → K) (circleA circleB : Circle K) : Circle K × Circle K :=
  let minimumDistance := circleA.Radius + circleB.Radius
  let distance := Vec2.length sqrt (Vec2.sub circleB.Position circleA.Position)
  if distance < minimumDistance then
    let aToB := Vec2.normalize sqrt (Vec2.sub circleB.Position circleA.Position)
    let push := Vec2.scale aToB (minimumDistance - distance)
    if circleA.Mass ≥ circleB.Mass then
      let ratio := circleB.Mass / circleA.Mass
      let posA := Vec2.sub circleA.Position (Vec2.scale push (0 + ratio * (1 / 2)))
      let posB := Vec2.add circleB.Position (Vec2.scale push (1 - ratio * (1 / 2)))
      ({ circleA with Position := posA }, { circleB with Position := posB })
    else
      let ratio := circleA.Mass / circleB.Mass
      let posA := Vec2.sub circleA.Position (Vec2.scale push (1 - ratio * (1 / 2)))
      let posB := Vec2.add circleB.Position (Vec2.scale push (0 + ratio * (1 / 2)))
      ({ circleA with Position := posA }, { circleB with Position := posB })
  else (circleA, circleB)

/-- Body of the inner loop over `j` (lines 118-134): the guard tests `circleA`. -/
def pairStep (sqrt : K → K) (i : Nat) (Circles : List (Circle K)) (j : Nat) :
    List (Circle K) :=
  match Circles[i]?, Circles[j]? with
  | some circleA, some circleB =>
    if !circleA.HasPhysics then Circles
    else
      let r := resolvePair sqrt circleA circleB
      (Circles.set i r.1).set j r.2
  | _, _ => Circles

/-- Body of the loop over `i` (lines 107-135): boundary constraint on circle `i`,
then the pairs `(i, j)` for `j = i + 1, ..., size - 1`. -/
def constraintStep (sqrt : K → K) (Circles : List (Circle K)) (i : Nat) :
    List (Circle K) :=
  match Circles[i]? with
  | none => Circles
  | some circleA =>
    if !circleA.HasPhysics then Circles
    else
      (List.range' (i + 1) (Circles.length - (i + 1))).foldl (pairStep sqrt i)
        (Circles.set i (boundary sqrt circleA))

/-- The loop over `i` (lines 106-136). -/
def constraintPass (sqrt : K → K) (Circles : List (Circle K)) : List (Circle K) :=
  (List.range Circles.length).foldl (constraintStep sqrt) Circles

/-- The drag pin (lines 102-104). -/
def pin (SelectedCircle : Option Nat) (SelectedCircleOffset MouseWorldPos : Vec2 K)
    (Circles : List (Circle K)) : List (Circle K) :=
  match SelectedCircle with
  | none => Circles
  | some s =>
    match Circles[s]? with
    | none => Circles
    | some c =>
      Circles.set s { c with Position := Vec2.add MouseWorldPos SelectedCircleOffset }

/-- One constraint iteration (lines 102-136): pin, then the loop over `i`. -/
def constraintIteration (sqrt : K → K) (SelectedCircle : Option Nat)
    (SelectedCircleOffset MouseWorldPos : Vec2 K) (Circles : List (Circle K)) :
    List (Circle K) :=
  constraintPass sqrt (pin SelectedCircle SelectedCircleOffset MouseWorldPos Circles)

/-- Body of the `while` loop without the final `time -= FixedUpdateTime`
(lines 87-137): the integration loop, then `ConstraintIterations` constraint
iterations. -/
def fixedStep (sqrt : K → K) (SelectedCircle : Option Nat)
    (SelectedCircleOffset MouseWorldPos : Vec2 K) (Circles : List (Circle K)) :
    List (Circle K) :=
  (constraintIteration sqrt SelectedCircle SelectedCircleOffset MouseWorldPos)^[ConstraintIterations]
    (Circles.map integrate)

/-- Rounding to the nearest integer, ties to the even one. -/
def roundNearestEven [FloorRing K] (x : K) : ℤ :=
  if Int.fract x < 1 / 2 then ⌊x⌋
  else if 1 / 2 < Int.fract x then ⌊x⌋ + 1
  else if ⌊x⌋ % 2 = 0 then ⌊x⌋ else ⌊x⌋ + 1

/-- The value a `float` operation stores for the exact result `x`: IEEE 754 binary32,
round to nearest, ties to even.  The significand has 24 bits and the exponent is at
least `-126`, so the spacing at `x` is `2 ^ (max ⌊log₂ |x|⌋ (-126) - 23)`.  Overflow
(`|x| ≥ 2 ^ 128`) is not modelled. -/
def round32 [FloorRing K] (x : K) : K :=
  if x = 0 then 0
  else (roundNearestEven (x / 2 ^ (max (Int.log 2 |x|) (-126) - 23)) : K) *
    2 ^ (max (Int.log 2 |x|) (-126) - 23)

/-- The constant `FixedUpdateTime = 1.0f / 60.0f` as the accumulator compares and
subtracts it: the `float` quotient, `8947849 / 2 ^ 29`.  It exceeds `1 / 60`, the
value the integration pass is modelled with, by less than `2 ^ -29`. -/
def FixedUpdateTime32 [FloorRing K] : K := round32 (1 / 60)

/-- The `while (time >= FixedUpdateTime)` loop of `Update` (lines 86-140) on the two
fields it writes, `time` and `Circles`; `time -= FixedUpdateTime` is a `float`
subtraction.  The loop need not exit: `fuel` bounds the number of tests of its
condition, and the result is `none` when it has not exited within them. -/
def updateLoop [FloorRing K] (sqrt : K → K) (SelectedCircle : Option Nat)
    (SelectedCircleOffset MouseWorldPos : Vec2 K) :
    Nat → K → List (Circle K) → Option (K × List (Circle K))
  | 0, _, _ => none
  | fuel + 1, time, Circles =>
    if time ≥ FixedUpdateTime32 then
      updateLoop sqrt SelectedCircle SelectedCircleOffset MouseWorldPos fuel
        (round32 (time - FixedUpdateTime32))
        (fixedStep sqrt SelectedCircle SelectedCircleOffset MouseWorldPos Circles)
    else some (time, Circles)

/-- The method `GameState::Update` (lines 82-141): `time += dt` is a `float` addition;
`fuel` is the bound on the tests of the loop condition. -/
def Update [FloorRing K] (sqrt : K → K) (fuel : Nat) (dt : K) (st : GameState K) :
    Option (GameState K) :=
  (updateLoop sqrt st.SelectedCircle st.SelectedCircleOffset st.MouseWorldPos fuel
    (round32 (st.time + dt)) st.Circles).map
    (fun r => { st with time := r.1, Circles := r.2 })

/-- The range-for loop of `OnMouseButton` (lines 178-187) from the circle of index `i`
on: the index and the offset of the first hit, or nothing. -/
def selectLoop (sqrt : K → K) (MouseWorldPos : Vec2 K) :
    List (Circle K) → Nat → Option (Nat × Vec2 K)
  | [], _ => none
  | c :: rest, i =>
    if !c.HasPhysics then selectLoop sqrt MouseWorldPos rest (i + 1)
    else
      let difference := Vec2.sub c.Position MouseWorldPos
      if Vec2.length sqrt difference ≤ c.Radius then some (i, difference)
      else selectLoop sqrt MouseWorldPos rest (i + 1)

/-- The method `GameState::OnMouseButton` (lines 175-192). -/
def OnMouseButton (sqrt : K → K) (button : MouseButton) (pressed : Bool)
    (st : GameState K) : GameState K :=
  if button = MouseButton.Left then
    if pressed then
      match selectLoop sqrt st.MouseWorldPos st.Circles 0 with
      | some r => { st with SelectedCircle := some r.1, SelectedCircleOffset := r.2 }
      | none => st
    else { st with SelectedCircle := none }
  else st

end Simulation

/-! ## Specification vocabulary and sample inputs -/

section Samples

variable {K : Type} [LinearOrderedField K]

/-- The immovable background circle that `Init` puts first (lines 56-62); the
omitted `Mass` is value-initialised to zero. -/
def backgroundCircle : Circle K :=
  { Position := ⟨0, 0⟩, PrevPosition := ⟨0, 0⟩, Radius := 1, Mass := 0,
    Color := ⟨2 / 5, 2 / 5, 2 / 5⟩, HasPhysics := false }

/-- A dynamic circle at rest at `Position`, coloured red. -/
def restingCircle (Position : Vec2 K) (Radius Mass : K) : Circle K :=
  { Position := Position, PrevPosition := Position, Radius := Radius, Mass := Mass,
    Color := ⟨1, 0, 0⟩, HasPhysics := true }

/-- A dynamic circle with the given current and previous positions, coloured red. -/
def dynamicCircle (Position PrevPosition : Vec2 K) (Radius Mass : K) : Circle K :=
  { Position := Position, PrevPosition := PrevPosition, Radius := Radius, Mass := Mass,
    Color := ⟨1, 0, 0⟩, HasPhysics := true }

/-- An immovable circle (`HasPhysics = false`) at rest at `Position`, coloured grey. -/
def sceneryCircle (Position : Vec2 K) (Radius Mass : K) : Circle K :=
  { Position := Position, PrevPosition := Position, Radius := Radius, Mass := Mass,
    Color := ⟨2 / 5, 2 / 5, 2 / 5⟩, HasPhysics := false }

/-- The selection condition in the words of the specification: the circle is
physics-enabled and the distance from the point `p` to its centre is at most its
radius. -/
def SpecHit (sqrt : K → K) (p : Vec2 K) (c : Circle K) : Prop :=
  c.HasPhysics = true ∧ Vec2.distance sqrt p c.Position ≤ c.Radius

/-- The overlap of two circles in the words of the specification:
`radiusA + radiusB - distance`. -/
def specOverlap (sqrt : K → K) (A B : Circle K) : K :=
  A.Radius + B.Radius - Vec2.distance sqrt A.Position B.Position

/-- The mass ratio in the words of the specification: `lighterMass / heavierMass`. -/
def specRatio (A B : Circle K) : K := min A.Mass B.Mass / max A.Mass B.Mass

/-- The magnitude of the displacement of a circle between two states. -/
def displacement (sqrt : K → K) (before after : Circle K) : K :=
  Vec2.length sqrt (Vec2.sub after.Position before.Position)

/-- A store of two dynamic circles of radius `1 / 5` and mass `1` on the vertical axis:
the first below the origin and clear of the boundary, the second beyond the boundary
(`d + r > 1`) and overlapping the first. -/
def PinchedPair (Circles : List (Circle K)) : Prop :=
  ∃ A B : Circle K, Circles = [A, B] ∧ A.HasPhysics = true ∧ B.HasPhysics = true ∧
    A.Radius = 1 / 5 ∧ B.Radius = 1 / 5 ∧ A.Mass = 1 ∧ B.Mass = 1 ∧
    A.Position.x = 0 ∧ B.Position.x = 0 ∧
    A.Position.y < 0 ∧ -(4 / 5) < A.Position.y ∧ B.Position.y < -(4 / 5) ∧
    A.Position.y - B.Position.y < 2 / 5

/-- Body of the integration loop (lines 88-97) with the constant `Gravity` taken as a
parameter `gravity`; `integrate` is `integrateWith Gravity`. -/
def integrateWith (gravity : K) (circle : Circle K) : Circle K :=
  if !circle.HasPhysics then circle
  else
    let velocity := Vec2.sub circle.Position circle.PrevPosition
    let c1 := { circle with PrevPosition := circle.Position }
    let c2 := { c1 with Position := Vec2.add c1.Position velocity }
    { c2 with Position := ⟨c2.Position.x, c2.Position.y - gravity * FixedUpdateTime⟩ }

end Samples

/-! ## Theorems -/

section Accumulator

variable {K : Type} [LinearOrderedField K]

theorem FixedUpdateTime_pos : (0 : K) < FixedUpdateTime := by
  unfold FixedUpdateTime; positivity

variable [FloorRing K]

theorem roundNearestEven_of_lt (x : K) (n : ℤ) (h1 : (n : K) ≤ x) (h2 : x < n + 1 / 2) :
    roundNearestEven x = n := by
  have hf : ⌊x⌋ = n := Int.floor_eq_iff.mpr ⟨h1, by linarith⟩
  have hfr : Int.fract x < 1 / 2 := by
    rw [Int.fract, hf]; linarith
  unfold roundNearestEven
  rw [if_pos hfr, hf]

theorem roundNearestEven_of_gt (x : K) (n : ℤ) (h1 : (n : K) + 1 / 2 < x) (h2 : x < n + 1) :
    roundNearestEven x = n + 1 := by
  have hf : ⌊x⌋ = n := Int.floor_eq_iff.mpr ⟨by linarith, h2⟩
  have hfr : 1 / 2 < Int.fract x := by
    rw [Int.fract, hf]; linarith
  unfold roundNearestEven
  rw [if_neg (not_lt.mpr hfr.le), if_pos hfr, hf]

theorem roundNearestEven_intCast (n : ℤ) : roundNearestEven (n : K) = n :=
  roundNearestEven_of_lt _ n le_rfl (by linarith)

theorem round32_zero : round32 (0 : K) = 0 := by
  unfold round32; rw [if_pos rfl]

theorem round32_of_exponent (x : K) (e : ℤ) (h1 : (2 : K) ^ e ≤ |x|)
    (h2 : |x| < (2 : K) ^ (e + 1)) (he : -126 ≤ e) :
    round32 x = (roundNearestEven (x / 2 ^ (e - 23)) : K) * 2 ^ (e - 23) := by
  have hpos : 0 < |x| := lt_of_lt_of_le (by positivity) h1
  have hx : x ≠ 0 := abs_pos.mp hpos
  have hlog : Int.log 2 |x| = e := by
    apply le_antisymm
    · have := (Int.lt_zpow_iff_log_lt (b := 2) (by norm_num) hpos).mp (by exact_mod_cast h2)
      omega
    · exact (Int.zpow_le_iff_le_log (b := 2) (by norm_num) hpos).mp (by exact_mod_cast h1)
  unfold round32
  rw [if_neg hx, hlog, max_eq_left he]

theorem round32_representable (m e : ℤ) (hm1 : 2 ^ 23 ≤ |m|) (hm2 : |m| < 2 ^ 24)
    (he : -126 ≤ e) : round32 ((m : K) * 2 ^ (e - 23)) = (m : K) * 2 ^ (e - 23) := by
  have hp : (0 : K) < 2 ^ (e - 23) := by positivity
  have habs : |(m : K) * 2 ^ (e - 23)| = (|m| : ℤ) * 2 ^ (e - 23) := by
    rw [abs_mul, abs_of_pos hp, Int.cast_abs]
  have h23 : (2 : K) ^ e = 2 ^ (23 : ℤ) * 2 ^ (e - 23) := by
    rw [← zpow_add₀ (by norm_num : (2 : K) ≠ 0)]; congr 1; ring
  have h24 : (2 : K) ^ (e + 1) = 2 ^ (24 : ℤ) * 2 ^ (e - 23) := by
    rw [← zpow_add₀ (by norm_num : (2 : K) ≠ 0)]; congr 1; ring
  rw [round32_of_exponent _ e _ _ he, mul_div_assoc, div_self hp.ne.symm, mul_one,
    roundNearestEven_intCast]
  · rw [habs, h23]
    apply mul_le_mul_of_nonneg_right _ hp.le
    rw [show (2 : K) ^ (23 : ℤ) = ((2 ^ 23 : ℤ) : K) by norm_num]
    exact Int.cast_le.mpr hm1
  · rw [habs, h24]
    apply mul_lt_mul_of_pos_right _ hp
    rw [show (2 : K) ^ (24 : ℤ) = ((2 ^ 24 : ℤ) : K) by norm_num]
    exact Int.cast_lt.mpr hm2

theorem FixedUpdateTime32_eq : (FixedUpdateTime32 : K) = 8947849 / 536870912 := by
  unfold FixedUpdateTime32
  rw [round32_of_exponent (1 / 60 : K) (-6) (by rw [abs_of_pos (by norm_num)]; norm_num)
    (by rw [abs_of_pos (by norm_num)]; norm_num) (by norm_num),
    roundNearestEven_of_gt _ 8947848 (by norm_num) (by norm_num)]
  norm_num

theorem FixedUpdateTime32_pos : (0 : K) < FixedUpdateTime32 := by
  rw [FixedUpdateTime32_eq]; norm_num

theorem updateLoop_exit (sqrt : K → K) (sel : Option Nat) (off mouse : Vec2 K) (fuel : Nat)
    (time : K) (cs : List (Circle K)) (h : time < FixedUpdateTime32) :
    updateLoop sqrt sel off mouse (fuel + 1) time cs = some (time, cs) := by
  rw [updateLoop, if_neg (not_le.mpr h)]

theorem updateLoop_step (sqrt : K → K) (sel : Option Nat) (off mouse : Vec2 K) (fuel : Nat)
    (time : K) (cs : List (Circle K)) (h : FixedUpdateTime32 ≤ time) :
    updateLoop sqrt sel off mouse (fuel + 1) time cs =
      updateLoop sqrt sel off mouse fuel (round32 (time - FixedUpdateTime32))
        (fixedStep sqrt sel off mouse cs) := by
  rw [updateLoop, if_pos h]

/-- A positive number with a significand of 24 bits is its own rounding. -/
theorem round32_of_significand (x : K) (m : ℕ) (e : ℤ) (hm1 : 2 ^ 23 ≤ m) (hm2 : m < 2 ^ 24)
    (he : -126 ≤ e) (hx : x = (m : K) * 2 ^ (e - 23)) : round32 x = x := by
  have h := round32_representable (K := K) (m : ℤ) e
    (by rw [abs_of_nonneg (Int.natCast_nonneg m)]; exact_mod_cast hm1)
    (by rw [abs_of_nonneg (Int.natCast_nonneg m)]; exact_mod_cast hm2) he
  rw [Int.cast_natCast] at h
  rw [hx, h]

theorem round32_samples_exact :
    round32 (5 / 2 * FixedUpdateTime32 : K) = 11184811 / 268435456 ∧
    round32 ((0 : K) + 11184811 / 268435456) = 11184811 / 268435456 ∧
    round32 ((11184811 / 268435456 : K) - FixedUpdateTime32) = 13421773 / 536870912 ∧
    round32 ((11184811 / 268435456 : K) - 2 * FixedUpdateTime32) = 1118481 / 134217728 ∧
    round32 ((0 : K) + FixedUpdateTime32) = FixedUpdateTime32 ∧
    round32 ((FixedUpdateTime32 : K) - FixedUpdateTime32) = 0 := by
  refine ⟨?_, ?_, ?_, ?_, ?_, ?_⟩
  · rw [FixedUpdateTime32_eq,
      round32_of_exponent _ (-5) (by rw [abs_of_pos (by norm_num)]; norm_num)
        (by rw [abs_of_pos (by norm_num)]; norm_num) (by norm_num),
      roundNearestEven_of_lt _ 11184811 (by norm_num) (by norm_num)]
    norm_num
  · rw [zero_add]
    exact round32_of_significand _ 11184811 (-5) (by norm_num) (by norm_num) (by norm_num)
      (by norm_num)
  · rw [FixedUpdateTime32_eq]
    rw [show (11184811 / 268435456 : K) - 8947849 / 536870912 = 13421773 / 536870912 by
      norm_num]
    exact round32_of_significand _ 13421773 (-6) (by norm_num) (by norm_num) (by norm_num)
      (by norm_num)
  · rw [FixedUpdateTime32_eq]
    rw [show (11184811 / 268435456 : K) - 2 * (8947849 / 536870912) = 1118481 / 134217728 by
      norm_num]
    exact round32_of_significand _ 8947848 (-7) (by norm_num) (by norm_num) (by norm_num)
      (by norm_num)
  · rw [FixedUpdateTime32_eq, zero_add]
    exact round32_of_significand _ 8947849 (-6) (by norm_num) (by norm_num) (by norm_num)
      (by norm_num)
  · rw [sub_self, round32_zero]

end Accumulator

/-! ### Square roots and vectors -/

section VectorLemmas

variable {K : Type} [LinearOrderedField K]

namespace IsSqrt
variable {sqrt : K → K}

theorem nonneg (hs : IsSqrt sqrt) {x : K} (hx : 0 ≤ x) : 0 ≤ sqrt x := (hs x hx).1

theorem mul_self (hs : IsSqrt sqrt) {x : K} (hx : 0 ≤ x) : sqrt x * sqrt x = x := (hs x hx).2

/-- The square root of a square of a non-negative element. -/
theorem sqrt_mul_self (hs : IsSqrt sqrt) {a : K} (ha : 0 ≤ a) : sqrt (a * a) = a := by
  have h0 : 0 ≤ a * a := mul_nonneg ha ha
  have h1 := hs.nonneg h0
  have h2 := hs.mul_self h0
  nlinarith [mul_self_eq_mul_self_iff.mp h2]

theorem sqrt_zero (hs : IsSqrt sqrt) : sqrt 0 = 0 := by
  simpa using hs.sqrt_mul_self (le_refl (0 : K))

theorem eq_zero_iff (hs : IsSqrt sqrt) {x : K} (hx : 0 ≤ x) : sqrt x = 0 ↔ x = 0 := by
  constructor
  · intro h
    have := hs.mul_self hx
    rw [h] at this
    simpa using this.symm
  · rintro rfl
    exact hs.sqrt_zero

end IsSqrt

namespace Vec2
variable {sqrt : K → K}

theorem dot_self_nonneg (v : Vec2 K) : 0 ≤ dot v v := by
  unfold dot; nlinarith [mul_self_nonneg v.x, mul_self_nonneg v.y]

theorem length_nonneg (hs : IsSqrt sqrt) (v : Vec2 K) : 0 ≤ length sqrt v :=
  hs.nonneg (dot_self_nonneg v)

theorem length_mul_self (hs : IsSqrt sqrt) (v : Vec2 K) :
    length sqrt v * length sqrt v = dot v v :=
  hs.mul_self (dot_self_nonneg v)

theorem length_scale (hs : IsSqrt sqrt) (v : Vec2 K) {s : K} (h : 0 ≤ s) :
    length sqrt (scale v s) = length sqrt v * s := by
  have h1 : dot (scale v s) (scale v s) = (length sqrt v * s) * (length sqrt v * s) := by
    have := length_mul_self hs v
    calc dot (scale v s) (scale v s) = dot v v * (s * s) := by simp only [dot, scale]; ring
      _ = (length sqrt v * length sqrt v) * (s * s) := by rw [this]
      _ = _ := by ring
  unfold length at *
  rw [h1]
  exact hs.sqrt_mul_self (mul_nonneg (hs.nonneg (dot_self_nonneg v)) h)

theorem divScalar_eq_scale (v : Vec2 K) (s : K) : divScalar v s = scale v (1 / s) := by
  simp [divScalar, scale, div_eq_mul_inv]

theorem length_divScalar (hs : IsSqrt sqrt) (v : Vec2 K) {s : K} (h : 0 < s) :
    length sqrt (divScalar v s) = length sqrt v / s := by
  rw [divScalar_eq_scale, length_scale hs v (by positivity)]
  ring

theorem length_eq_zero_iff (hs : IsSqrt sqrt) (v : Vec2 K) :
    length sqrt v = 0 ↔ v = ⟨0, 0⟩ := by
  unfold length
  rw [hs.eq_zero_iff (dot_self_nonneg v)]
  constructor
  · intro h
    unfold dot at h
    have hx : v.x = 0 := by nlinarith [mul_self_nonneg v.x, mul_self_nonneg v.y]
    have hy : v.y = 0 := by nlinarith [mul_self_nonneg v.x, mul_self_nonneg v.y]
    cases v; simp_all
  · rintro rfl
    simp [dot]

theorem sub_eq_zero_iff (a b : Vec2 K) : sub a b = ⟨0, 0⟩ ↔ a = b := by
  cases a; cases b
  simp [sub, sub_eq_zero]

/-- A vector on the vertical axis has length `|y|`. -/
theorem length_vertical (hs : IsSqrt sqrt) (y : K) : length sqrt ⟨0, y⟩ = |y| := by
  unfold length dot
  have : (0 : K) * 0 + y * y = |y| * |y| := by simp
  rw [this]
  exact hs.sqrt_mul_self (abs_nonneg y)

theorem length_normalize (hs : IsSqrt sqrt) {v : Vec2 K} (hv : v ≠ ⟨0, 0⟩) :
    length sqrt (normalize sqrt v) = 1 := by
  have hl : length sqrt v ≠ 0 := fun h => hv ((length_eq_zero_iff hs v).mp h)
  have hpos : 0 < length sqrt v := lt_of_le_of_ne (length_nonneg hs v) (Ne.symm hl)
  unfold normalize inversesqrt
  rw [length_scale hs v (by have : 0 < sqrt (dot v v) := hpos
                            positivity)]
  unfold length at *
  field_simp

end Vec2

theorem isSqrt_real : IsSqrt Real.sqrt := fun x hx =>
  ⟨Real.sqrt_nonneg x, Real.mul_self_sqrt hx⟩


end VectorLemmas

/-! ### Frame lemmas and stores with one dynamic circle -/

section LoneLemmas

variable {K : Type} [LinearOrderedField K]

section Frame
variable (sqrt : K → K)

@[simp] theorem boundary_Radius (c : Circle K) : (boundary sqrt c).Radius = c.Radius := by
  unfold boundary; dsimp only; split <;> rfl
@[simp] theorem boundary_Mass (c : Circle K) : (boundary sqrt c).Mass = c.Mass := by
  unfold boundary; dsimp only; split <;> rfl
@[simp] theorem boundary_HasPhysics (c : Circle K) :
    (boundary sqrt c).HasPhysics = c.HasPhysics := by
  unfold boundary; dsimp only; split <;> rfl
@[simp] theorem boundary_PrevPosition (c : Circle K) :
    (boundary sqrt c).PrevPosition = c.PrevPosition := by
  unfold boundary; dsimp only; split <;> rfl

@[simp] theorem integrate_Radius (c : Circle K) : (integrate c).Radius = c.Radius := by
  unfold integrate; split <;> rfl
@[simp] theorem integrate_Mass (c : Circle K) : (integrate c).Mass = c.Mass := by
  unfold integrate; split <;> rfl
@[simp] theorem integrate_HasPhysics (c : Circle K) :
    (integrate c).HasPhysics = c.HasPhysics := by
  unfold integrate; split <;> rfl

theorem integrate_of_not_HasPhysics {c : Circle K} (h : c.HasPhysics = false) :
    integrate c = c := by
  unfold integrate; simp [h]

end Frame

section Lone
variable (sqrt : K → K)

/-- The loop over `i` skips every index that holds a circle without physics. -/
theorem foldl_constraintStep_skip (cs : List (Circle K)) (l : List Nat)
    (h : ∀ i ∈ l, ∀ c, cs[i]? = some c → c.HasPhysics = false) :
    l.foldl (constraintStep sqrt) cs = cs := by
  induction l with
  | nil => rfl
  | cons i l ih =>
    have hi : constraintStep sqrt cs i = cs := by
      unfold constraintStep
      cases hc : cs[i]? with
      | none => rfl
      | some c => simp [h i (List.mem_cons_self i l) c hc]
    rw [List.foldl_cons, hi]
    exact ih (fun j hj => h j (List.mem_cons_of_mem i hj))

/-- One pass of the constraint loop over a store whose only circle with physics is
the last one: only the boundary constraint acts, on that circle. -/
theorem constraintPass_lone (pre : List (Circle K)) (c : Circle K)
    (hpre : ∀ b ∈ pre, b.HasPhysics = false) (hc : c.HasPhysics = true) :
    constraintPass sqrt (pre ++ [c]) = pre ++ [boundary sqrt c] := by
  have hskip : (List.range pre.length).foldl (constraintStep sqrt) (pre ++ [c]) = pre ++ [c] := by
    apply foldl_constraintStep_skip
    intro i hi b hb
    rw [List.mem_range] at hi
    rw [List.getElem?_append_left hi] at hb
    exact hpre b (List.getElem?_mem hb)
  unfold constraintPass
  rw [List.length_append, List.length_singleton, List.range_succ, List.foldl_append, hskip]
  simp [constraintStep, hc]

theorem map_integrate_lone (pre : List (Circle K)) (c : Circle K)
    (hpre : ∀ b ∈ pre, b.HasPhysics = false) :
    (pre ++ [c]).map integrate = pre ++ [integrate c] := by
  rw [List.map_append, List.map_singleton]
  congr 1
  conv_rhs => rw [← List.map_id pre]
  exact List.map_congr_left (fun b hb => integrate_of_not_HasPhysics (hpre b hb))

end Lone

section LoneStep
variable (sqrt : K → K)

theorem pin_lone (sel : Option Nat) (off mouse : Vec2 K) (pre : List (Circle K))
    (c : Circle K) (hsel : sel = none ∨ sel = some pre.length) :
    pin sel off mouse (pre ++ [c]) =
      pre ++ [if sel = some pre.length then { c with Position := Vec2.add mouse off } else c] := by
  rcases hsel with h | h <;> subst h <;> simp [pin]

/-- A constraint iteration on a store whose only circle with physics is the last one,
selected or not: the pin if it is selected, then the boundary constraint. -/
theorem constraintIteration_lone (sel : Option Nat) (off mouse : Vec2 K)
    (pre : List (Circle K)) (c : Circle K) (hsel : sel = none ∨ sel = some pre.length)
    (hpre : ∀ b ∈ pre, b.HasPhysics = false) (hc : c.HasPhysics = true) :
    constraintIteration sqrt sel off mouse (pre ++ [c]) =
      pre ++ [boundary sqrt
        (if sel = some pre.length then { c with Position := Vec2.add mouse off } else c)] := by
  unfold constraintIteration
  rw [pin_lone sel off mouse pre c hsel]
  apply constraintPass_lone sqrt pre _ hpre
  split <;> exact hc

theorem iterate_constraintIteration_lone (sel : Option Nat) (off mouse : Vec2 K)
    (pre : List (Circle K)) (hsel : sel = none ∨ sel = some pre.length)
    (hpre : ∀ b ∈ pre, b.HasPhysics = false) (n : Nat) :
    ∀ c : Circle K, c.HasPhysics = true →
      ∃ c1 : Circle K, (constraintIteration sqrt sel off mouse)^[n] (pre ++ [c]) = pre ++ [c1] ∧
        c1.HasPhysics = true ∧ c1.Radius = c.Radius ∧ c1.PrevPosition = c.PrevPosition := by
  induction n with
  | zero => intro c hc; exact ⟨c, rfl, hc, rfl, rfl⟩
  | succ n ih =>
    intro c hc
    obtain ⟨c1, h1, hp, hr, hq⟩ := ih c hc
    rw [Function.iterate_succ_apply', h1,
      constraintIteration_lone sqrt sel off mouse pre c1 hsel hpre hp]
    refine ⟨_, rfl, ?_, ?_, ?_⟩
    · rw [boundary_HasPhysics]; split <;> exact hp
    · rw [boundary_Radius]; split <;> exact hr
    · rw [boundary_PrevPosition]; split <;> exact hq

/-- A fixed step on a store whose only circle with physics is the last one: the store
keeps its shape, and the last constraint iteration ends with the pin (if selected)
followed by the boundary constraint on that circle. -/
theorem fixedStep_lone (sel : Option Nat) (off mouse : Vec2 K)
    (pre : List (Circle K)) (c : Circle K) (hsel : sel = none ∨ sel = some pre.length)
    (hpre : ∀ b ∈ pre, b.HasPhysics = false) (hc : c.HasPhysics = true) :
    ∃ c1 : Circle K, fixedStep sqrt sel off mouse (pre ++ [c]) =
        pre ++ [boundary sqrt
          (if sel = some pre.length then { c1 with Position := Vec2.add mouse off } else c1)] ∧
      c1.HasPhysics = true ∧ c1.Radius = c.Radius ∧ c1.PrevPosition = c.Position := by
  unfold fixedStep
  rw [map_integrate_lone pre c hpre]
  obtain ⟨c1, h1, hp, hr, hq⟩ := iterate_constraintIteration_lone sqrt sel off mouse pre hsel hpre
    7 (integrate c) (by simpa using hc)
  refine ⟨c1, ?_, hp, by simpa using hr, ?_⟩
  · show (constraintIteration sqrt sel off mouse)^[7 + 1] _ = _
    rw [Function.iterate_succ_apply', h1,
      constraintIteration_lone sqrt sel off mouse pre c1 hsel hpre hp]
  · rw [hq]; unfold integrate; simp [hc]

/-- A fixed step on a store whose only circle with physics is the last one, nothing
selected: integration, then eight times the boundary constraint. -/
theorem fixedStep_lone_unselected (off mouse : Vec2 K) (pre : List (Circle K))
    (c : Circle K) (hpre : ∀ b ∈ pre, b.HasPhysics = false) (hc : c.HasPhysics = true) :
    fixedStep sqrt none off mouse (pre ++ [c]) =
      pre ++ [(boundary sqrt)^[ConstraintIterations] (integrate c)] := by
  have key : ∀ (n : Nat) (c : Circle K), c.HasPhysics = true →
      (constraintIteration sqrt none off mouse)^[n] (pre ++ [c]) =
        pre ++ [(boundary sqrt)^[n] c] := by
    intro n
    induction n with
    | zero => intro c _; rfl
    | succ n ih =>
      intro c hc
      rw [Function.iterate_succ_apply, Function.iterate_succ_apply,
        constraintIteration_lone sqrt none off mouse pre c (Or.inl rfl) hpre hc]
      simpa using ih (boundary sqrt c) (by simpa using hc)
  unfold fixedStep
  rw [map_integrate_lone pre c hpre, key _ _ (by simpa using hc)]

end LoneStep

end LoneLemmas

/-! ### The boundary constraint -/

section Boundary

variable {K : Type} [LinearOrderedField K] {sqrt : K → K}

theorem boundary_of_lt (c : Circle K)
    (h : Vec2.length sqrt c.Position < ConstraintRadius - c.Radius) : boundary sqrt c = c := by
  unfold boundary
  simp only [ge_iff_le, if_neg (not_le.mpr h)]

theorem boundary_of_ge (c : Circle K)
    (h : ConstraintRadius - c.Radius ≤ Vec2.length sqrt c.Position) :
    boundary sqrt c =
      { c with Position := Vec2.divScalar c.Position (Vec2.length sqrt c.Position + c.Radius) } := by
  unfold boundary
  simp only [ge_iff_le, if_pos h]

/-- When the boundary constraint applies, the new distance from the origin is
`d / (d + r)`. -/
theorem boundary_length (hs : IsSqrt sqrt) (c : Circle K)
    (h : ConstraintRadius - c.Radius ≤ Vec2.length sqrt c.Position) :
    Vec2.length sqrt (boundary sqrt c).Position =
      Vec2.length sqrt c.Position / (Vec2.length sqrt c.Position + c.Radius) := by
  have hpos : 0 < Vec2.length sqrt c.Position + c.Radius := by
    unfold ConstraintRadius at h; linarith
  rw [boundary_of_ge c h]
  exact Vec2.length_divScalar hs c.Position hpos

/-- After the boundary constraint the centre is strictly inside the unit disc. -/
theorem boundary_length_lt_one (hs : IsSqrt sqrt) (c : Circle K) (hr : 0 < c.Radius) :
    Vec2.length sqrt (boundary sqrt c).Position < ConstraintRadius := by
  by_cases h : ConstraintRadius - c.Radius ≤ Vec2.length sqrt c.Position
  · have hpos : 0 < Vec2.length sqrt c.Position + c.Radius := by
      unfold ConstraintRadius at h; linarith
    rw [boundary_length hs c h, ConstraintRadius, div_lt_one hpos]
    linarith
  · rw [boundary_of_lt c (not_le.mp h)]
    linarith [not_le.mp h]

/-- The boundary constraint does not bring an outer edge that is beyond the boundary
back onto it: the overshoot stays positive. -/
theorem boundary_overshoot_pos (hs : IsSqrt sqrt) (c : Circle K) (hr : 0 < c.Radius)
    (h : ConstraintRadius < Vec2.length sqrt c.Position + c.Radius) :
    ConstraintRadius < Vec2.length sqrt (boundary sqrt c).Position + (boundary sqrt c).Radius := by
  have hge : ConstraintRadius - c.Radius ≤ Vec2.length sqrt c.Position := by linarith
  have hd := Vec2.length_nonneg hs c.Position
  rw [boundary_length hs c hge, boundary_Radius]
  unfold ConstraintRadius at *
  have hpos : 0 < Vec2.length sqrt c.Position + c.Radius := by linarith
  rw [← sub_pos]
  have : Vec2.length sqrt c.Position / (Vec2.length sqrt c.Position + c.Radius) + c.Radius - 1 =
      c.Radius * (Vec2.length sqrt c.Position + c.Radius - 1) /
        (Vec2.length sqrt c.Position + c.Radius) := by
    field_simp; ring
  rw [this]
  apply div_pos _ hpos
  exact mul_pos hr (by linarith)

end Boundary

/-! ### C10: one application of the boundary constraint -/

section BoundaryClaim

variable {K : Type} [LinearOrderedField K] {sqrt : K → K}

/-- C10, refuted as stated: the circle of radius `1 / 2` centred at `(0, 1)` has
`d + r = 3 / 2 > 1`, and after one application of the boundary constraint its
centre is at `(0, 2 / 3)`, so that `d' + r = 7 / 6`, not `1`. -/
theorem boundary_edge_on_boundary_counterexample :
    (0 : ℝ) < (restingCircle ⟨0, 1⟩ (1 / 2) 1 : Circle ℝ).Radius ∧
    Vec2.length Real.sqrt (restingCircle ⟨0, 1⟩ (1 / 2) 1 : Circle ℝ).Position +
      (restingCircle ⟨0, 1⟩ (1 / 2) 1 : Circle ℝ).Radius > 1 ∧
    (boundary Real.sqrt (restingCircle ⟨0, 1⟩ (1 / 2) 1)).Position = ⟨0, 2 / 3⟩ ∧
    Vec2.length Real.sqrt (boundary Real.sqrt (restingCircle ⟨0, 1⟩ (1 / 2) 1)).Position +
      (restingCircle ⟨0, 1⟩ (1 / 2) 1 : Circle ℝ).Radius = 7 / 6 ∧
    Vec2.length Real.sqrt (boundary Real.sqrt (restingCircle ⟨0, 1⟩ (1 / 2) 1)).Position +
      (restingCircle ⟨0, 1⟩ (1 / 2) 1 : Circle ℝ).Radius ≠ 1 := by
  have hl : Vec2.length Real.sqrt (⟨0, 1⟩ : Vec2 ℝ) = 1 := by
    rw [Vec2.length_vertical isSqrt_real]; norm_num
  have hb : (boundary Real.sqrt (restingCircle ⟨0, 1⟩ (1 / 2) 1)).Position = ⟨0, 2 / 3⟩ := by
    rw [boundary_of_ge _ (by simp only [restingCircle, hl, ConstraintRadius]; norm_num)]
    simp only [restingCircle, hl, Vec2.divScalar]
    norm_num
  have hl2 : Vec2.length Real.sqrt (⟨0, 2 / 3⟩ : Vec2 ℝ) = 2 / 3 := by
    rw [Vec2.length_vertical isSqrt_real]; norm_num [abs_of_pos]
  refine ⟨?_, ?_, hb, ?_, ?_⟩
  · simp only [restingCircle]; norm_num
  · simp only [restingCircle, hl]; norm_num
  · rw [hb, hl2]; simp only [restingCircle]; norm_num
  · rw [hb, hl2]; simp only [restingCircle]; norm_num

/-- C10, amended.  For a circle of radius `r > 0` at distance `d` from the origin
with `d + r > 1`, one application of the boundary constraint leaves the centre at
distance `d' = d / (d + r)`; then `d' < 1`, the centre is strictly inside the
boundary, and `d' + r > 1`, the outer edge is still beyond it. -/
theorem boundary_new_distance (hs : IsSqrt sqrt) (c : Circle K) (hr : 0 < c.Radius)
    (h : ConstraintRadius < Vec2.length sqrt c.Position + c.Radius) :
    Vec2.length sqrt (boundary sqrt c).Position =
      Vec2.length sqrt c.Position / (Vec2.length sqrt c.Position + c.Radius) ∧
    Vec2.length sqrt (boundary sqrt c).Position < ConstraintRadius ∧
    ConstraintRadius < Vec2.length sqrt (boundary sqrt c).Position + c.Radius := by
  refine ⟨boundary_length hs c (by linarith), boundary_length_lt_one hs c hr, ?_⟩
  simpa using boundary_overshoot_pos hs c hr h

/-- C10 amended, at the circle of radius `1 / 2` centred at `(0, 1)`. -/
theorem boundary_new_distance_witness :
    IsSqrt Real.sqrt ∧ (0 : ℝ) < (restingCircle ⟨0, 1⟩ (1 / 2) 1 : Circle ℝ).Radius ∧
    (ConstraintRadius : ℝ) <
      Vec2.length Real.sqrt (restingCircle ⟨0, 1⟩ (1 / 2) 1 : Circle ℝ).Position +
        (restingCircle ⟨0, 1⟩ (1 / 2) 1 : Circle ℝ).Radius ∧
    (Vec2.length Real.sqrt (boundary Real.sqrt (restingCircle ⟨0, 1⟩ (1 / 2) 1)).Position =
      Vec2.length Real.sqrt (restingCircle ⟨0, 1⟩ (1 / 2) 1 : Circle ℝ).Position /
        (Vec2.length Real.sqrt (restingCircle ⟨0, 1⟩ (1 / 2) 1 : Circle ℝ).Position +
          (restingCircle ⟨0, 1⟩ (1 / 2) 1 : Circle ℝ).Radius) ∧
    Vec2.length Real.sqrt (boundary Real.sqrt (restingCircle ⟨0, 1⟩ (1 / 2) 1)).Position <
      ConstraintRadius ∧
    ConstraintRadius <
      Vec2.length Real.sqrt (boundary Real.sqrt (restingCircle ⟨0, 1⟩ (1 / 2) 1)).Position +
        (restingCircle ⟨0, 1⟩ (1 / 2) 1 : Circle ℝ).Radius) := by
  have hl : Vec2.length Real.sqrt (⟨0, 1⟩ : Vec2 ℝ) = 1 := by
    rw [Vec2.length_vertical isSqrt_real]; norm_num
  have hr : (0 : ℝ) < (restingCircle ⟨0, 1⟩ (1 / 2) 1 : Circle ℝ).Radius := by
    simp only [restingCircle]; norm_num
  have h : (ConstraintRadius : ℝ) <
      Vec2.length Real.sqrt (restingCircle ⟨0, 1⟩ (1 / 2) 1 : Circle ℝ).Position +
        (restingCircle ⟨0, 1⟩ (1 / 2) 1 : Circle ℝ).Radius := by
    simp only [restingCircle, hl, ConstraintRadius]; norm_num
  exact ⟨isSqrt_real, hr, h, boundary_new_distance isSqrt_real _ hr h⟩

end BoundaryClaim

/-! ### Repeated fixed steps on a store with one dynamic circle -/

section Containment

variable {K : Type} [LinearOrderedField K] {sqrt : K → K}

end Containment

/-! ### C4: the drag pin -/

section DragPin

variable {K : Type} [LinearOrderedField K] {sqrt : K → K}

/-- C4, refuted as stated: a lone selected circle of radius `1 / 10` with offset
`(0, 0)` and the pointer held at `(0, -1)` ends the fixed step at `(0, -10 / 11)`,
where the boundary constraint of the last iteration puts it, not at `(0, -1)`. -/
theorem drag_pin_counterexample :
    ((fixedStep Real.sqrt (some 0) ⟨0, 0⟩ ⟨0, -1⟩
      [restingCircle ⟨0, 0⟩ (1 / 10) 1])[0]?).map Circle.Position =
      some (⟨0, -10 / 11⟩ : Vec2 ℝ) ∧
    (⟨0, -10 / 11⟩ : Vec2 ℝ) ≠ Vec2.add ⟨0, -1⟩ ⟨0, 0⟩ := by
  constructor
  · obtain ⟨c1, h1, _, hr, _⟩ := fixedStep_lone Real.sqrt (some 0) ⟨0, 0⟩ ⟨0, -1⟩ []
      (restingCircle ⟨0, 0⟩ (1 / 10) 1) (Or.inr rfl) (by simp) rfl
    rw [List.nil_append, List.nil_append] at h1
    have hadd : Vec2.add (⟨0, -1⟩ : Vec2 ℝ) ⟨0, 0⟩ = ⟨0, -1⟩ := by
      simp only [Vec2.add]; norm_num
    have hl : Vec2.length Real.sqrt (⟨0, -1⟩ : Vec2 ℝ) = 1 := by
      rw [Vec2.length_vertical isSqrt_real]; norm_num
    have hr1 : c1.Radius = 1 / 10 := hr
    rw [h1, List.length_nil, if_pos rfl, hadd]
    rw [boundary_of_ge _ (by simp only [hl, hr1, ConstraintRadius]; norm_num)]
    simp only [hl, hr1, Vec2.divScalar, List.getElem?_cons_zero, Option.map_some']
    norm_num
  · simp only [Vec2.add]
    intro h
    have hy := congrArg Vec2.y h
    norm_num at hy

/-- C4, amended.  In a store whose only circle with physics is the last one, that
circle selected with offset `O` and the pointer held at `P` with
`length (P + O) + r < 1`, the selected circle ends the fixed step at `P + O` exactly. -/
theorem drag_pin_lone (sqrt : K → K) (off mouse : Vec2 K) (pre : List (Circle K))
    (c : Circle K) (hpre : ∀ b ∈ pre, b.HasPhysics = false) (hc : c.HasPhysics = true)
    (hin : Vec2.length sqrt (Vec2.add mouse off) < ConstraintRadius - c.Radius) :
    ∃ c1 : Circle K,
      fixedStep sqrt (some pre.length) off mouse (pre ++ [c]) = pre ++ [c1] ∧
      c1.Position = Vec2.add mouse off := by
  obtain ⟨c1, h1, _, hr, _⟩ :=
    fixedStep_lone sqrt (some pre.length) off mouse pre c (Or.inr rfl) hpre hc
  rw [if_pos rfl, boundary_of_lt _ (by rw [hr]; exact hin)] at h1
  exact ⟨_, h1, rfl⟩

/-- C4 amended, at the store holding the background circle and one circle of radius
`1 / 10`, selected with offset `(0, 0)`, the pointer held at `(0, 1 / 2)`. -/
theorem drag_pin_lone_witness :
    (∀ b ∈ [(backgroundCircle : Circle ℝ)], b.HasPhysics = false) ∧
    (restingCircle ⟨0, 0⟩ (1 / 10) 1 : Circle ℝ).HasPhysics = true ∧
    Vec2.length Real.sqrt (Vec2.add (⟨0, 1 / 2⟩ : Vec2 ℝ) ⟨0, 0⟩) <
      ConstraintRadius - (restingCircle ⟨0, 0⟩ (1 / 10) 1 : Circle ℝ).Radius ∧
    ∃ c1 : Circle ℝ,
      fixedStep Real.sqrt (some [(backgroundCircle : Circle ℝ)].length) ⟨0, 0⟩ ⟨0, 1 / 2⟩
        ([backgroundCircle] ++ [restingCircle ⟨0, 0⟩ (1 / 10) 1]) = [backgroundCircle] ++ [c1] ∧
      c1.Position = Vec2.add ⟨0, 1 / 2⟩ ⟨0, 0⟩ := by
  have hpre : ∀ b ∈ [(backgroundCircle : Circle ℝ)], b.HasPhysics = false := by
    intro b hb
    rw [List.mem_singleton] at hb
    rw [hb]; rfl
  have hin : Vec2.length Real.sqrt (Vec2.add (⟨0, 1 / 2⟩ : Vec2 ℝ) ⟨0, 0⟩) <
      ConstraintRadius - (restingCircle ⟨0, 0⟩ (1 / 10) 1 : Circle ℝ).Radius := by
    have hadd : Vec2.add (⟨0, 1 / 2⟩ : Vec2 ℝ) ⟨0, 0⟩ = ⟨0, 1 / 2⟩ := by
      simp only [Vec2.add]; norm_num
    rw [hadd, Vec2.length_vertical isSqrt_real, abs_of_pos (by norm_num)]
    simp only [restingCircle, ConstraintRadius]
    norm_num
  exact ⟨hpre, rfl, hin,
    drag_pin_lone Real.sqrt ⟨0, 0⟩ ⟨0, 1 / 2⟩ [backgroundCircle]
      (restingCircle ⟨0, 0⟩ (1 / 10) 1) hpre rfl hin⟩

end DragPin

/-! ### C7: gravity -/

section GravityClaim

variable {K : Type} [LinearOrderedField K] {sqrt : K → K}

theorem integrate_of_HasPhysics (c : Circle K) (hc : c.HasPhysics = true) :
    integrate c =
      { c with
        Position := ⟨c.Position.x + (c.Position.x - c.PrevPosition.x),
          c.Position.y + (c.Position.y - c.PrevPosition.y) - Gravity * FixedUpdateTime⟩
        PrevPosition := c.Position } := by
  unfold integrate
  simp [hc, Vec2.add, Vec2.sub]

/-- A fixed step on a store whose only circle with physics is the last one, nothing
selected, that circle clear of the boundary after integration: only integration acts. -/
theorem fixedStep_lone_free (off mouse : Vec2 K) (pre : List (Circle K)) (c : Circle K)
    (hpre : ∀ b ∈ pre, b.HasPhysics = false) (hc : c.HasPhysics = true)
    (hb : Vec2.length sqrt (integrate c).Position < ConstraintRadius - c.Radius) :
    fixedStep sqrt none off mouse (pre ++ [c]) = pre ++ [integrate c] := by
  rw [fixedStep_lone_unselected sqrt off mouse pre c hpre hc]
  have hfix : boundary sqrt (integrate c) = integrate c :=
    boundary_of_lt _ (by rw [integrate_Radius]; exact hb)
  rw [Function.iterate_fixed hfix]

/-- C7, refuted as stated: a lone circle of radius `1 / 10` at `(0, 0)` with previous
position `(0, -1 / 10)` stays clear of the boundary during the fixed step and ends
it at height `59 / 600`, above the height `0` at which it began. -/
theorem gravity_monotonicity_counterexample :
    Vec2.length Real.sqrt
        (integrate (dynamicCircle ⟨0, 0⟩ ⟨0, -1 / 10⟩ (1 / 10) 1 : Circle ℝ)).Position +
      (dynamicCircle ⟨0, 0⟩ ⟨0, -1 / 10⟩ (1 / 10) 1 : Circle ℝ).Radius < ConstraintRadius ∧
    (fixedStep Real.sqrt none ⟨0, 0⟩ ⟨0, 0⟩
      [dynamicCircle ⟨0, 0⟩ ⟨0, -1 / 10⟩ (1 / 10) 1]).map (fun c => c.Position.y) =
        [59 / 600] ∧
    ¬ ((59 / 600 : ℝ) < (dynamicCircle ⟨0, 0⟩ ⟨0, -1 / 10⟩ (1 / 10) 1 : Circle ℝ).Position.y) := by
  have hpos : (integrate (dynamicCircle ⟨0, 0⟩ ⟨0, -1 / 10⟩ (1 / 10) 1 : Circle ℝ)).Position =
      ⟨0, 59 / 600⟩ := by
    rw [integrate_of_HasPhysics _ rfl]
    simp only [dynamicCircle, Gravity, FixedUpdateTime]
    norm_num
  have hl : Vec2.length Real.sqrt (⟨0, 59 / 600⟩ : Vec2 ℝ) = 59 / 600 := by
    rw [Vec2.length_vertical isSqrt_real, abs_of_pos (by norm_num)]
  have hb : Vec2.length Real.sqrt
      (integrate (dynamicCircle ⟨0, 0⟩ ⟨0, -1 / 10⟩ (1 / 10) 1 : Circle ℝ)).Position <
      ConstraintRadius - (dynamicCircle ⟨0, 0⟩ ⟨0, -1 / 10⟩ (1 / 10) 1 : Circle ℝ).Radius := by
    rw [hpos, hl]; simp only [dynamicCircle, ConstraintRadius]; norm_num
  refine ⟨by linarith, ?_, ?_⟩
  · have h := @fixedStep_lone_free ℝ _ Real.sqrt ⟨0, 0⟩ ⟨0, 0⟩ []
      (dynamicCircle ⟨0, 0⟩ ⟨0, -1 / 10⟩ (1 / 10) 1) (by simp) rfl hb
    rw [List.nil_append, List.nil_append] at h
    rw [h, List.map_singleton, hpos]
  · simp only [dynamicCircle]; norm_num

/-- C7, amended.  In a store whose only circle with physics is the last one, nothing
selected, a fixed step during which the boundary constraint does not engage and
which the circle enters with `Position.y - PrevPosition.y < Gravity * FixedUpdateTime`
leaves `Position.y = 2 * Position.y - PrevPosition.y - Gravity * FixedUpdateTime`,
strictly smaller than before the step, and the circle enters the next step under
the same condition. -/
theorem gravity_step_decreases (sqrt : K → K) (off mouse : Vec2 K) (pre : List (Circle K))
    (c : Circle K) (hpre : ∀ b ∈ pre, b.HasPhysics = false) (hc : c.HasPhysics = true)
    (hb : Vec2.length sqrt (integrate c).Position < ConstraintRadius - c.Radius)
    (hv : c.Position.y - c.PrevPosition.y < Gravity * FixedUpdateTime) :
    ∃ c1 : Circle K, fixedStep sqrt none off mouse (pre ++ [c]) = pre ++ [c1] ∧
      c1.Position.y = 2 * c.Position.y - c.PrevPosition.y - Gravity * FixedUpdateTime ∧
      c1.Position.y < c.Position.y ∧
      c1.Position.y - c1.PrevPosition.y < Gravity * FixedUpdateTime := by
  refine ⟨integrate c, fixedStep_lone_free off mouse pre c hpre hc hb, ?_, ?_, ?_⟩
  · rw [integrate_of_HasPhysics c hc]; simp only; ring
  · rw [integrate_of_HasPhysics c hc]; simp only; linarith
  · have hg : (0 : K) < Gravity * FixedUpdateTime := by
      unfold Gravity FixedUpdateTime; positivity
    rw [integrate_of_HasPhysics c hc]; simp only; linarith

/-- C7 amended, at the store holding the background circle and one circle of radius
`1 / 10` at rest at the origin. -/
theorem gravity_step_decreases_witness :
    (∀ b ∈ [(backgroundCircle : Circle ℝ)], b.HasPhysics = false) ∧
    (restingCircle ⟨0, 0⟩ (1 / 10) 1 : Circle ℝ).HasPhysics = true ∧
    Vec2.length Real.sqrt (integrate (restingCircle ⟨0, 0⟩ (1 / 10) 1 : Circle ℝ)).Position <
      ConstraintRadius - (restingCircle ⟨0, 0⟩ (1 / 10) 1 : Circle ℝ).Radius ∧
    (restingCircle ⟨0, 0⟩ (1 / 10) 1 : Circle ℝ).Position.y -
      (restingCircle ⟨0, 0⟩ (1 / 10) 1 : Circle ℝ).PrevPosition.y < Gravity * FixedUpdateTime ∧
    ∃ c1 : Circle ℝ,
      fixedStep Real.sqrt none ⟨0, 0⟩ ⟨0, 0⟩
        ([backgroundCircle] ++ [restingCircle ⟨0, 0⟩ (1 / 10) 1]) = [backgroundCircle] ++ [c1] ∧
      c1.Position.y = 2 * (restingCircle ⟨0, 0⟩ (1 / 10) 1 : Circle ℝ).Position.y -
        (restingCircle ⟨0, 0⟩ (1 / 10) 1 : Circle ℝ).PrevPosition.y - Gravity * FixedUpdateTime ∧
      c1.Position.y < (restingCircle ⟨0, 0⟩ (1 / 10) 1 : Circle ℝ).Position.y ∧
      c1.Position.y - c1.PrevPosition.y < Gravity * FixedUpdateTime := by
  have hpre : ∀ b ∈ [(backgroundCircle : Circle ℝ)], b.HasPhysics = false := by
    intro b hb
    rw [List.mem_singleton] at hb
    rw [hb]; rfl
  have hpos : (integrate (restingCircle ⟨0, 0⟩ (1 / 10) 1 : Circle ℝ)).Position =
      ⟨0, -1 / 600⟩ := by
    rw [integrate_of_HasPhysics _ rfl]
    simp only [restingCircle, Gravity, FixedUpdateTime]
    norm_num
  have hb : Vec2.length Real.sqrt
      (integrate (restingCircle ⟨0, 0⟩ (1 / 10) 1 : Circle ℝ)).Position <
      ConstraintRadius - (restingCircle ⟨0, 0⟩ (1 / 10) 1 : Circle ℝ).Radius := by
    rw [hpos, Vec2.length_vertical isSqrt_real, abs_of_neg (by norm_num)]
    simp only [restingCircle, ConstraintRadius]; norm_num
  have hv : (restingCircle ⟨0, 0⟩ (1 / 10) 1 : Circle ℝ).Position.y -
      (restingCircle ⟨0, 0⟩ (1 / 10) 1 : Circle ℝ).PrevPosition.y < Gravity * FixedUpdateTime := by
    simp only [restingCircle, Gravity, FixedUpdateTime]; norm_num
  exact ⟨hpre, rfl, hb, hv,
    gravity_step_decreases Real.sqrt ⟨0, 0⟩ ⟨0, 0⟩ [backgroundCircle]
      (restingCircle ⟨0, 0⟩ (1 / 10) 1) hpre rfl hb hv⟩

end GravityClaim

/-! ### C5: selection -/

section Selection

variable {K : Type} [LinearOrderedField K] {sqrt : K → K}

theorem selectLoop_some (p : Vec2 K) :
    ∀ (cs : List (Circle K)) (k i : Nat) (d : Vec2 K),
      selectLoop sqrt p cs k = some (i, d) →
      k ≤ i ∧ ∃ c, cs[i - k]? = some c ∧ SpecHit sqrt p c ∧ d = Vec2.sub c.Position p ∧
        ∀ j < i - k, ∀ b, cs[j]? = some b → ¬ SpecHit sqrt p b := by
  intro cs
  induction cs with
  | nil => intro k i d h; simp [selectLoop] at h
  | cons c rest ih =>
    intro k i d h
    unfold selectLoop at h
    by_cases hp : c.HasPhysics = true
    · by_cases hl : Vec2.length sqrt (Vec2.sub c.Position p) ≤ c.Radius
      · simp only [hp, Bool.not_true, Bool.false_eq_true, if_false, if_pos hl, Option.some.injEq,
          Prod.mk.injEq] at h
        obtain ⟨rfl, rfl⟩ := h
        refine ⟨le_refl _, c, by simp, ⟨hp, hl⟩, rfl, ?_⟩
        intro j hj
        simp at hj
      · simp only [hp, Bool.not_true, Bool.false_eq_true, if_false, if_neg hl] at h
        obtain ⟨hk, c1, hc1, hhit, hd, hmin⟩ := ih (k + 1) i d h
        refine ⟨by omega, c1, ?_, hhit, hd, ?_⟩
        · rw [show i - k = (i - (k + 1)) + 1 by omega, List.getElem?_cons_succ]; exact hc1
        · intro j hj b hb
          cases j with
          | zero =>
            simp only [List.getElem?_cons_zero, Option.some.injEq] at hb
            subst hb
            exact fun hh => hl hh.2
          | succ j =>
            rw [List.getElem?_cons_succ] at hb
            exact hmin j (by omega) b hb
    · have hp1 : c.HasPhysics = false := by simpa using hp
      simp only [hp1, Bool.not_false, if_true] at h
      obtain ⟨hk, c1, hc1, hhit, hd, hmin⟩ := ih (k + 1) i d h
      refine ⟨by omega, c1, ?_, hhit, hd, ?_⟩
      · rw [show i - k = (i - (k + 1)) + 1 by omega, List.getElem?_cons_succ]; exact hc1
      · intro j hj b hb
        cases j with
        | zero =>
          simp only [List.getElem?_cons_zero, Option.some.injEq] at hb
          subst hb
          exact fun hh => hp hh.1
        | succ j =>
          rw [List.getElem?_cons_succ] at hb
          exact hmin j (by omega) b hb

theorem selectLoop_none (p : Vec2 K) :
    ∀ (cs : List (Circle K)) (k : Nat), selectLoop sqrt p cs k = none →
      ∀ b ∈ cs, ¬ SpecHit sqrt p b := by
  intro cs
  induction cs with
  | nil => intro k _ b hb; simp at hb
  | cons c rest ih =>
    intro k h b hb
    unfold selectLoop at h
    by_cases hp : c.HasPhysics = true
    · by_cases hl : Vec2.length sqrt (Vec2.sub c.Position p) ≤ c.Radius
      · simp [hp, hl] at h
      · simp only [hp, Bool.not_true, Bool.false_eq_true, if_false, if_neg hl] at h
        rcases List.mem_cons.mp hb with rfl | hb
        · exact fun hh => hl hh.2
        · exact ih (k + 1) h b hb
    · have hp1 : c.HasPhysics = false := by simpa using hp
      simp only [hp1, Bool.not_false, if_true] at h
      rcases List.mem_cons.mp hb with rfl | hb
      · exact fun hh => hp hh.1
      · exact ih (k + 1) h b hb

/-- C5 (selection is first-match in store order).  With nothing selected, a press of
the left button selects index `i` exactly when circle `i` is physics-enabled and
within its radius of the pointer and no circle of smaller index is; the selection
stays empty exactly when no circle is hit; the store is not changed. -/
theorem OnMouseButton_selects_first_hit (sqrt : K → K) (st : GameState K)
    (hsel : st.SelectedCircle = none) :
    (∀ i, (OnMouseButton sqrt MouseButton.Left true st).SelectedCircle = some i ↔
      ((∃ c, st.Circles[i]? = some c ∧ SpecHit sqrt st.MouseWorldPos c) ∧
        ∀ j < i, ∀ b, st.Circles[j]? = some b → ¬ SpecHit sqrt st.MouseWorldPos b)) ∧
    ((OnMouseButton sqrt MouseButton.Left true st).SelectedCircle = none ↔
      ∀ b ∈ st.Circles, ¬ SpecHit sqrt st.MouseWorldPos b) ∧
    (OnMouseButton sqrt MouseButton.Left true st).Circles = st.Circles := by
  unfold OnMouseButton
  simp only [if_true]
  cases hloop : selectLoop sqrt st.MouseWorldPos st.Circles 0 with
  | none =>
    have hnone := selectLoop_none st.MouseWorldPos st.Circles 0 hloop
    simp only [hsel]
    refine ⟨fun i => ⟨fun h => by simp at h, ?_⟩, ⟨fun _ => hnone, fun _ => trivial⟩, trivial⟩
    rintro ⟨⟨c, hc, hhit⟩, _⟩
    exact absurd hhit (hnone c (List.getElem?_mem hc))
  | some r =>
    obtain ⟨i0, d⟩ := r
    obtain ⟨_, c0, hc0, hhit0, _, hmin0⟩ := selectLoop_some st.MouseWorldPos st.Circles 0 i0 d hloop
    rw [Nat.sub_zero] at hc0 hmin0
    refine ⟨fun i => ⟨?_, ?_⟩, ⟨fun h => by simp at h, ?_⟩, rfl⟩
    · intro h
      simp only [Option.some.injEq] at h
      subst h
      exact ⟨⟨c0, hc0, hhit0⟩, hmin0⟩
    · rintro ⟨⟨c, hc, hhit⟩, hmin⟩
      simp only [Option.some.injEq]
      rcases Nat.lt_trichotomy i0 i with hlt | heq | hgt
      · exact absurd hhit0 (hmin i0 hlt c0 hc0)
      · exact heq
      · exact absurd hhit (hmin0 i hgt c hc)
    · intro hall
      exact absurd hhit0 (hall c0 (List.getElem?_mem hc0))

/-- C5 at the store holding the background circle, a circle of radius `1 / 5` at
`(0, 1 / 10)` and a circle of radius `1 / 5` at `(0, 0)`, the pointer at `(0, 0)`:
both dynamic circles contain the pointer and the centre of the later one is nearer,
and the earlier one, of index `1`, is selected. -/
theorem OnMouseButton_selects_first_hit_witness :
    (⟨0, [backgroundCircle, restingCircle ⟨0, 1 / 10⟩ (1 / 5) 1,
        restingCircle ⟨0, 0⟩ (1 / 5) 1], none, ⟨0, 0⟩, ⟨0, 0⟩⟩ :
      GameState ℝ).SelectedCircle = none ∧
    SpecHit Real.sqrt (⟨0, 0⟩ : Vec2 ℝ) (restingCircle ⟨0, 1 / 10⟩ (1 / 5) 1) ∧
    SpecHit Real.sqrt (⟨0, 0⟩ : Vec2 ℝ) (restingCircle ⟨0, 0⟩ (1 / 5) 1) ∧
    Vec2.distance Real.sqrt (⟨0, 0⟩ : Vec2 ℝ) (⟨0, 0⟩ : Vec2 ℝ) <
      Vec2.distance Real.sqrt (⟨0, 0⟩ : Vec2 ℝ) (⟨0, 1 / 10⟩ : Vec2 ℝ) ∧
    (OnMouseButton Real.sqrt MouseButton.Left true
      (⟨0, [backgroundCircle, restingCircle ⟨0, 1 / 10⟩ (1 / 5) 1,
        restingCircle ⟨0, 0⟩ (1 / 5) 1], none, ⟨0, 0⟩, ⟨0, 0⟩⟩ :
      GameState ℝ)).SelectedCircle = some 1 := by
  have hd1 : Vec2.distance Real.sqrt (⟨0, 0⟩ : Vec2 ℝ) (⟨0, 1 / 10⟩ : Vec2 ℝ) = 1 / 10 := by
    simp only [Vec2.distance, Vec2.sub, sub_zero]
    rw [Vec2.length_vertical isSqrt_real, abs_of_pos (by norm_num)]
  have hd0 : Vec2.distance Real.sqrt (⟨0, 0⟩ : Vec2 ℝ) (⟨0, 0⟩ : Vec2 ℝ) = 0 := by
    simp only [Vec2.distance, Vec2.sub, sub_zero]
    rw [Vec2.length_vertical isSqrt_real, abs_zero]
  have hit1 : SpecHit Real.sqrt (⟨0, 0⟩ : Vec2 ℝ) (restingCircle ⟨0, 1 / 10⟩ (1 / 5) 1) := by
    refine ⟨rfl, ?_⟩
    simp only [restingCircle, hd1]; norm_num
  have hit2 : SpecHit Real.sqrt (⟨0, 0⟩ : Vec2 ℝ) (restingCircle ⟨0, 0⟩ (1 / 5) 1) := by
    refine ⟨rfl, ?_⟩
    simp only [restingCircle, hd0]; norm_num
  refine ⟨rfl, hit1, hit2, by rw [hd0, hd1]; norm_num, ?_⟩
  apply ((OnMouseButton_selects_first_hit Real.sqrt _ rfl).1 1).mpr
  refine ⟨⟨_, rfl, hit1⟩, ?_⟩
  intro j hj b hb
  have hj0 : j = 0 := by omega
  subst hj0
  simp only [List.getElem?_cons_zero, Option.some.injEq] at hb
  subst hb
  intro hh
  exact absurd hh.1 (by simp [backgroundCircle])

end Selection

/-! ### Resolution of one pair -/

section PairLemmas

theorem Vec2.eq_iff {K : Type} (a b : Vec2 K) : a = b ↔ a.x = b.x ∧ a.y = b.y := by
  cases a; cases b; simp

variable {K : Type} [LinearOrderedField K] {sqrt : K → K}

theorem Vec2.length_scale_abs (hs : IsSqrt sqrt) (v : Vec2 K) (s : K) :
    Vec2.length sqrt (Vec2.scale v s) = Vec2.length sqrt v * |s| := by
  have h1 : Vec2.dot (Vec2.scale v s) (Vec2.scale v s) =
      Vec2.dot (Vec2.scale v |s|) (Vec2.scale v |s|) := by
    simp only [Vec2.dot, Vec2.scale]
    have := abs_mul_abs_self s
    linear_combination (-(v.x * v.x) - v.y * v.y) * this
  unfold Vec2.length
  rw [h1]
  exact Vec2.length_scale hs v (abs_nonneg s)

/-- A non-zero vector is its length times its normalisation. -/
theorem Vec2.scale_normalize (hs : IsSqrt sqrt) {v : Vec2 K} (hv : v ≠ ⟨0, 0⟩) :
    Vec2.scale (Vec2.normalize sqrt v) (Vec2.length sqrt v) = v := by
  have hl : Vec2.length sqrt v ≠ 0 := fun h => hv ((Vec2.length_eq_zero_iff hs v).mp h)
  rw [Vec2.eq_iff]
  unfold Vec2.length at hl
  simp only [Vec2.scale, Vec2.normalize, Vec2.inversesqrt, Vec2.length]
  constructor <;> field_simp

theorem resolvePair_no_overlap (A B : Circle K)
    (h : A.Radius + B.Radius ≤ Vec2.length sqrt (Vec2.sub B.Position A.Position)) :
    resolvePair sqrt A B = (A, B) := by
  unfold resolvePair
  simp only [if_neg (not_lt.mpr h)]

theorem resolvePair_overlap_ge (A B : Circle K)
    (h : Vec2.length sqrt (Vec2.sub B.Position A.Position) < A.Radius + B.Radius)
    (hm : B.Mass ≤ A.Mass) :
    (resolvePair sqrt A B).1.Position = Vec2.sub A.Position
      (Vec2.scale (Vec2.scale (Vec2.normalize sqrt (Vec2.sub B.Position A.Position))
        (A.Radius + B.Radius - Vec2.length sqrt (Vec2.sub B.Position A.Position)))
        (0 + B.Mass / A.Mass * (1 / 2))) ∧
    (resolvePair sqrt A B).2.Position = Vec2.add B.Position
      (Vec2.scale (Vec2.scale (Vec2.normalize sqrt (Vec2.sub B.Position A.Position))
        (A.Radius + B.Radius - Vec2.length sqrt (Vec2.sub B.Position A.Position)))
        (1 - B.Mass / A.Mass * (1 / 2))) := by
  unfold resolvePair
  simp only [if_pos h, ge_iff_le, if_pos hm, and_self]

theorem resolvePair_overlap_lt (A B : Circle K)
    (h : Vec2.length sqrt (Vec2.sub B.Position A.Position) < A.Radius + B.Radius)
    (hm : A.Mass < B.Mass) :
    (resolvePair sqrt A B).1.Position = Vec2.sub A.Position
      (Vec2.scale (Vec2.scale (Vec2.normalize sqrt (Vec2.sub B.Position A.Position))
        (A.Radius + B.Radius - Vec2.length sqrt (Vec2.sub B.Position A.Position)))
        (1 - A.Mass / B.Mass * (1 / 2))) ∧
    (resolvePair sqrt A B).2.Position = Vec2.add B.Position
      (Vec2.scale (Vec2.scale (Vec2.normalize sqrt (Vec2.sub B.Position A.Position))
        (A.Radius + B.Radius - Vec2.length sqrt (Vec2.sub B.Position A.Position)))
        (0 + A.Mass / B.Mass * (1 / 2))) := by
  unfold resolvePair
  simp only [if_pos h, ge_iff_le, if_neg (not_le.mpr hm), and_self]

@[simp] theorem resolvePair_fst_Radius (A B : Circle K) :
    (resolvePair sqrt A B).1.Radius = A.Radius := by
  unfold resolvePair; dsimp only; split
  · split <;> rfl
  · rfl
@[simp] theorem resolvePair_snd_Radius (A B : Circle K) :
    (resolvePair sqrt A B).2.Radius = B.Radius := by
  unfold resolvePair; dsimp only; split
  · split <;> rfl
  · rfl
@[simp] theorem resolvePair_fst_Mass (A B : Circle K) :
    (resolvePair sqrt A B).1.Mass = A.Mass := by
  unfold resolvePair; dsimp only; split
  · split <;> rfl
  · rfl
@[simp] theorem resolvePair_snd_Mass (A B : Circle K) :
    (resolvePair sqrt A B).2.Mass = B.Mass := by
  unfold resolvePair; dsimp only; split
  · split <;> rfl
  · rfl
@[simp] theorem resolvePair_fst_HasPhysics (A B : Circle K) :
    (resolvePair sqrt A B).1.HasPhysics = A.HasPhysics := by
  unfold resolvePair; dsimp only; split
  · split <;> rfl
  · rfl
@[simp] theorem resolvePair_snd_HasPhysics (A B : Circle K) :
    (resolvePair sqrt A B).2.HasPhysics = B.HasPhysics := by
  unfold resolvePair; dsimp only; split
  · split <;> rfl
  · rfl
@[simp] theorem resolvePair_fst_PrevPosition (A B : Circle K) :
    (resolvePair sqrt A B).1.PrevPosition = A.PrevPosition := by
  unfold resolvePair; dsimp only; split
  · split <;> rfl
  · rfl
@[simp] theorem resolvePair_snd_PrevPosition (A B : Circle K) :
    (resolvePair sqrt A B).2.PrevPosition = B.PrevPosition := by
  unfold resolvePair; dsimp only; split
  · split <;> rfl
  · rfl

/-- Displacing the two ends of a non-zero vector `v` along its direction, the tail
by `-a` and the head by `b`, lengthens it by `a + b`. -/
theorem Vec2.length_pushed_apart (hs : IsSqrt sqrt) (p q : Vec2 K) (hpq : p ≠ q) (o a b : K)
    (hpos : 0 ≤ Vec2.length sqrt (Vec2.sub q p) + o * (a + b)) :
    Vec2.length sqrt (Vec2.sub
      (Vec2.add q (Vec2.scale (Vec2.scale (Vec2.normalize sqrt (Vec2.sub q p)) o) b))
      (Vec2.sub p (Vec2.scale (Vec2.scale (Vec2.normalize sqrt (Vec2.sub q p)) o) a))) =
    Vec2.length sqrt (Vec2.sub q p) + o * (a + b) := by
  have hv : Vec2.sub q p ≠ ⟨0, 0⟩ := fun h => hpq ((Vec2.sub_eq_zero_iff q p).mp h).symm
  have key : Vec2.sub
      (Vec2.add q (Vec2.scale (Vec2.scale (Vec2.normalize sqrt (Vec2.sub q p)) o) b))
      (Vec2.sub p (Vec2.scale (Vec2.scale (Vec2.normalize sqrt (Vec2.sub q p)) o) a)) =
      Vec2.scale (Vec2.normalize sqrt (Vec2.sub q p))
        (Vec2.length sqrt (Vec2.sub q p) + o * (a + b)) := by
    have h := Vec2.scale_normalize hs hv
    rw [Vec2.eq_iff] at h ⊢
    obtain ⟨hx, hy⟩ := h
    simp only [Vec2.scale, Vec2.add, Vec2.sub] at hx hy ⊢
    constructor
    · linear_combination -hx
    · linear_combination -hy
  rw [key, Vec2.length_scale hs _ hpos, Vec2.length_normalize hs hv, one_mul]

end PairLemmas

/-! ### C6: mass-weighted collision response -/

section MassWeighted

variable {K : Type} [LinearOrderedField K] {sqrt : K → K}

theorem Vec2.length_sub_sub_self (a v : Vec2 K) :
    Vec2.length sqrt (Vec2.sub (Vec2.sub a v) a) = Vec2.length sqrt v := by
  unfold Vec2.length Vec2.dot Vec2.sub
  congr 1
  simp only
  ring

theorem Vec2.length_add_sub_self (a v : Vec2 K) :
    Vec2.length sqrt (Vec2.sub (Vec2.add a v) a) = Vec2.length sqrt v := by
  unfold Vec2.length Vec2.dot Vec2.sub Vec2.add
  congr 1
  simp only
  ring

theorem Vec2.scale_scale (v : Vec2 K) (a b : K) :
    Vec2.scale (Vec2.scale v a) b = Vec2.scale v (a * b) := by
  simp only [Vec2.scale, mul_assoc]

/-- The two displacements of `resolvePair` on an overlapping pair with distinct
centres: along the unit vector from `circleA` to `circleB`, backwards for `circleA`
and forwards for `circleB`, by shares `wA` and `wB` of the overlap. -/
theorem resolvePair_displacements (A B : Circle K) (hmA : 0 < A.Mass) (hmB : 0 < B.Mass)
    (hov : Vec2.length sqrt (Vec2.sub B.Position A.Position) < A.Radius + B.Radius) :
    ∃ wA wB : K, 0 < wA ∧ 0 < wB ∧ wA + wB = 1 ∧
      (B.Mass ≤ A.Mass → wA = B.Mass / A.Mass * (1 / 2)) ∧
      (A.Mass < B.Mass → wB = A.Mass / B.Mass * (1 / 2)) ∧
      (resolvePair sqrt A B).1.Position = Vec2.sub A.Position
        (Vec2.scale (Vec2.normalize sqrt (Vec2.sub B.Position A.Position))
          ((A.Radius + B.Radius - Vec2.length sqrt (Vec2.sub B.Position A.Position)) * wA)) ∧
      (resolvePair sqrt A B).2.Position = Vec2.add B.Position
        (Vec2.scale (Vec2.normalize sqrt (Vec2.sub B.Position A.Position))
          ((A.Radius + B.Radius - Vec2.length sqrt (Vec2.sub B.Position A.Position)) * wB)) := by
  rcases le_or_lt B.Mass A.Mass with hm | hm
  · obtain ⟨h1, h2⟩ := resolvePair_overlap_ge A B hov hm
    have hr0 : 0 < B.Mass / A.Mass := div_pos hmB hmA
    have hr1 : B.Mass / A.Mass ≤ 1 := (div_le_one hmA).mpr hm
    refine ⟨B.Mass / A.Mass * (1 / 2), 1 - B.Mass / A.Mass * (1 / 2), by positivity,
      by linarith, by ring, fun _ => rfl, fun h => absurd h (not_lt.mpr hm), ?_, ?_⟩
    · rw [h1, Vec2.scale_scale, zero_add]
    · rw [h2, Vec2.scale_scale]
  · obtain ⟨h1, h2⟩ := resolvePair_overlap_lt A B hov hm
    have hr0 : 0 < A.Mass / B.Mass := div_pos hmA hmB
    have hr1 : A.Mass / B.Mass ≤ 1 := (div_le_one hmB).mpr hm.le
    refine ⟨1 - A.Mass / B.Mass * (1 / 2), A.Mass / B.Mass * (1 / 2), by linarith,
      by positivity, by ring, fun h => absurd hm (not_lt.mpr h), fun _ => rfl, ?_, ?_⟩
    · rw [h1, Vec2.scale_scale]
    · rw [h2, Vec2.scale_scale, zero_add]

/-- After `resolvePair` on an overlapping pair with distinct centres the centres are
exactly `Radius + Radius` apart. -/
theorem resolvePair_distance (hs : IsSqrt sqrt) (A B : Circle K)
    (hne : A.Position ≠ B.Position) (hmA : 0 < A.Mass) (hmB : 0 < B.Mass)
    (hov : Vec2.length sqrt (Vec2.sub B.Position A.Position) < A.Radius + B.Radius) :
    Vec2.length sqrt (Vec2.sub (resolvePair sqrt A B).2.Position
      (resolvePair sqrt A B).1.Position) = A.Radius + B.Radius := by
  obtain ⟨wA, wB, _, _, hsum, _, _, h1, h2⟩ := resolvePair_displacements A B hmA hmB hov
  have hd := Vec2.length_nonneg hs (Vec2.sub B.Position A.Position)
  rw [h1, h2, ← Vec2.scale_scale, ← Vec2.scale_scale (b := wA),
    Vec2.length_pushed_apart hs A.Position B.Position hne _ wA wB
      (by rw [hsum]; linarith), hsum]
  ring

/-- C6 (mass-weighted collision response).  On an overlapping pair with distinct
centres and positive masses, `resolvePair` moves `circleA` backwards and `circleB`
forwards along the unit vector from `circleA` to `circleB`; the heavier circle is
displaced by `overlap * ratio * 0.5` and the lighter one by
`overlap * (1 - ratio * 0.5)`, with `ratio = lighterMass / heavierMass`; the lighter
circle is displaced strictly more when the masses differ and equally when they are
equal; afterwards the centres are `Radius + Radius` apart. -/
theorem mass_weighted_response (hs : IsSqrt sqrt) (A B : Circle K)
    (hne : A.Position ≠ B.Position) (hmA : 0 < A.Mass) (hmB : 0 < B.Mass)
    (hov : Vec2.distance sqrt A.Position B.Position < A.Radius + B.Radius) :
    Vec2.length sqrt (Vec2.normalize sqrt (Vec2.sub B.Position A.Position)) = 1 ∧
    (resolvePair sqrt A B).1.Position = Vec2.sub A.Position
      (Vec2.scale (Vec2.normalize sqrt (Vec2.sub B.Position A.Position))
        (displacement sqrt A (resolvePair sqrt A B).1)) ∧
    (resolvePair sqrt A B).2.Position = Vec2.add B.Position
      (Vec2.scale (Vec2.normalize sqrt (Vec2.sub B.Position A.Position))
        (displacement sqrt B (resolvePair sqrt A B).2)) ∧
    (B.Mass ≤ A.Mass →
      displacement sqrt A (resolvePair sqrt A B).1 =
        specOverlap sqrt A B * specRatio A B * (1 / 2) ∧
      displacement sqrt B (resolvePair sqrt A B).2 =
        specOverlap sqrt A B * (1 - specRatio A B * (1 / 2))) ∧
    (A.Mass ≤ B.Mass →
      displacement sqrt B (resolvePair sqrt A B).2 =
        specOverlap sqrt A B * specRatio A B * (1 / 2) ∧
      displacement sqrt A (resolvePair sqrt A B).1 =
        specOverlap sqrt A B * (1 - specRatio A B * (1 / 2))) ∧
    (B.Mass < A.Mass →
      displacement sqrt A (resolvePair sqrt A B).1 <
        displacement sqrt B (resolvePair sqrt A B).2) ∧
    (A.Mass < B.Mass →
      displacement sqrt B (resolvePair sqrt A B).2 <
        displacement sqrt A (resolvePair sqrt A B).1) ∧
    (A.Mass = B.Mass →
      displacement sqrt A (resolvePair sqrt A B).1 =
        displacement sqrt B (resolvePair sqrt A B).2) ∧
    Vec2.distance sqrt (resolvePair sqrt A B).1.Position (resolvePair sqrt A B).2.Position =
      A.Radius + B.Radius := by
  have hov1 : Vec2.length sqrt (Vec2.sub B.Position A.Position) < A.Radius + B.Radius := hov
  have hv : Vec2.sub B.Position A.Position ≠ ⟨0, 0⟩ :=
    fun h => hne ((Vec2.sub_eq_zero_iff B.Position A.Position).mp h).symm
  have hu := Vec2.length_normalize hs hv
  obtain ⟨wA, wB, hwA, hwB, hsum, hge, hlt, h1, h2⟩ :=
    resolvePair_displacements A B hmA hmB hov1
  have ho : 0 < A.Radius + B.Radius - Vec2.length sqrt (Vec2.sub B.Position A.Position) :=
    sub_pos.mpr hov1
  have hdA : displacement sqrt A (resolvePair sqrt A B).1 =
      (A.Radius + B.Radius - Vec2.length sqrt (Vec2.sub B.Position A.Position)) * wA := by
    unfold displacement
    rw [h1, Vec2.length_sub_sub_self, Vec2.length_scale hs _ (mul_pos ho hwA).le, hu, one_mul]
  have hdB : displacement sqrt B (resolvePair sqrt A B).2 =
      (A.Radius + B.Radius - Vec2.length sqrt (Vec2.sub B.Position A.Position)) * wB := by
    unfold displacement
    rw [h2, Vec2.length_add_sub_self, Vec2.length_scale hs _ (mul_pos ho hwB).le, hu, one_mul]
  have hso : specOverlap sqrt A B =
      A.Radius + B.Radius - Vec2.length sqrt (Vec2.sub B.Position A.Position) := rfl
  refine ⟨hu, by rw [hdA]; exact h1, by rw [hdB]; exact h2, ?_, ?_, ?_, ?_, ?_,
    resolvePair_distance hs A B hne hmA hmB hov1⟩
  · intro hm
    have hr : specRatio A B = B.Mass / A.Mass := by
      unfold specRatio; rw [min_eq_right hm, max_eq_left hm]
    have hA := hge hm
    have hB : wB = 1 - B.Mass / A.Mass * (1 / 2) := by linarith
    rw [hdA, hdB, hso, hr, hA, hB]
    exact ⟨by ring, rfl⟩
  · intro hm
    rcases lt_or_eq_of_le hm with hm1 | hm1
    · have hr : specRatio A B = A.Mass / B.Mass := by
        unfold specRatio; rw [min_eq_left hm, max_eq_right hm]
      have hB := hlt hm1
      have hA : wA = 1 - A.Mass / B.Mass * (1 / 2) := by linarith
      rw [hdA, hdB, hso, hr, hA, hB]
      exact ⟨by ring, rfl⟩
    · have hr : specRatio A B = 1 := by
        unfold specRatio; rw [min_eq_left hm, max_eq_right hm, hm1, div_self hmB.ne.symm]
      have hA := hge hm1.ge
      rw [hm1, div_self hmB.ne.symm] at hA
      have hB : wB = 1 / 2 := by linarith
      rw [hdA, hdB, hso, hr, hA, hB]
      exact ⟨by ring, by ring⟩
  · intro hm
    have hA := hge hm.le
    have hr1 : B.Mass / A.Mass < 1 := (div_lt_one hmA).mpr hm
    rw [hdA, hdB]
    exact mul_lt_mul_of_pos_left (by linarith) ho
  · intro hm
    have hB := hlt hm
    have hr1 : A.Mass / B.Mass < 1 := (div_lt_one hmB).mpr hm
    rw [hdA, hdB]
    exact mul_lt_mul_of_pos_left (by linarith) ho
  · intro hm
    have hA := hge hm.ge
    rw [hm, div_self hmB.ne.symm] at hA
    have hB : wB = 1 / 2 := by linarith
    rw [hdA, hdB, hA, hB]
    ring

/-- C6 at a circle of mass `10` at `(0, 0)` and a circle of mass `1` at `(0, 1 / 5)`,
both of radius `1 / 5`: the circle of mass `1` is displaced strictly more. -/
theorem mass_weighted_response_witness :
    IsSqrt Real.sqrt ∧
    (restingCircle ⟨0, 0⟩ (1 / 5) 10 : Circle ℝ).Position ≠
      (restingCircle ⟨0, 1 / 5⟩ (1 / 5) 1 : Circle ℝ).Position ∧
    (0 : ℝ) < (restingCircle ⟨0, 0⟩ (1 / 5) 10 : Circle ℝ).Mass ∧
    (0 : ℝ) < (restingCircle ⟨0, 1 / 5⟩ (1 / 5) 1 : Circle ℝ).Mass ∧
    Vec2.distance Real.sqrt (restingCircle ⟨0, 0⟩ (1 / 5) 10 : Circle ℝ).Position
        (restingCircle ⟨0, 1 / 5⟩ (1 / 5) 1 : Circle ℝ).Position <
      (restingCircle ⟨0, 0⟩ (1 / 5) 10 : Circle ℝ).Radius +
        (restingCircle ⟨0, 1 / 5⟩ (1 / 5) 1 : Circle ℝ).Radius ∧
    displacement Real.sqrt (restingCircle ⟨0, 0⟩ (1 / 5) 10)
        (resolvePair Real.sqrt (restingCircle ⟨0, 0⟩ (1 / 5) 10)
          (restingCircle ⟨0, 1 / 5⟩ (1 / 5) 1)).1 <
      displacement Real.sqrt (restingCircle ⟨0, 1 / 5⟩ (1 / 5) 1)
        (resolvePair Real.sqrt (restingCircle ⟨0, 0⟩ (1 / 5) 10)
          (restingCircle ⟨0, 1 / 5⟩ (1 / 5) 1)).2 := by
  have hne : (restingCircle ⟨0, 0⟩ (1 / 5) 10 : Circle ℝ).Position ≠
      (restingCircle ⟨0, 1 / 5⟩ (1 / 5) 1 : Circle ℝ).Position := by
    simp only [restingCircle]
    intro h
    have hy := congrArg Vec2.y h
    norm_num at hy
  have hmA : (0 : ℝ) < (restingCircle ⟨0, 0⟩ (1 / 5) 10 : Circle ℝ).Mass := by
    simp only [restingCircle]; norm_num
  have hmB : (0 : ℝ) < (restingCircle ⟨0, 1 / 5⟩ (1 / 5) 1 : Circle ℝ).Mass := by
    simp only [restingCircle]; norm_num
  have hov : Vec2.distance Real.sqrt (restingCircle ⟨0, 0⟩ (1 / 5) 10 : Circle ℝ).Position
      (restingCircle ⟨0, 1 / 5⟩ (1 / 5) 1 : Circle ℝ).Position <
      (restingCircle ⟨0, 0⟩ (1 / 5) 10 : Circle ℝ).Radius +
        (restingCircle ⟨0, 1 / 5⟩ (1 / 5) 1 : Circle ℝ).Radius := by
    simp only [restingCircle, Vec2.distance, Vec2.sub, sub_zero]
    rw [Vec2.length_vertical isSqrt_real, abs_of_pos (by norm_num)]
    norm_num
  exact ⟨isSqrt_real, hne, hmA, hmB, hov,
    (mass_weighted_response isSqrt_real _ _ hne hmA hmB hov).2.2.2.2.2.1
      (by simp only [restingCircle]; norm_num)⟩

end MassWeighted

/-! ### Stores of two circles -/

section TwoCircles

variable {K : Type} [LinearOrderedField K] {sqrt : K → K}

/-- One pass of the constraint loop over a store of two circles, the first with
physics: boundary constraint on the first, resolution of the pair, then the boundary
constraint on the second if it has physics. -/
theorem constraintPass_two (A B : Circle K) (hA : A.HasPhysics = true) :
    constraintPass sqrt [A, B] =
      [(resolvePair sqrt (boundary sqrt A) B).1,
        if B.HasPhysics = true
        then boundary sqrt (resolvePair sqrt (boundary sqrt A) B).2
        else (resolvePair sqrt (boundary sqrt A) B).2] := by
  have h2 : List.range 2 = [0, 1] := rfl
  have hr1 : List.range' 1 1 = [1] := rfl
  have hr2 : List.range' 2 0 = [] := rfl
  unfold constraintPass
  simp only [List.length_cons, List.length_nil, Nat.zero_add, Nat.reduceAdd, h2,
    List.foldl_cons, List.foldl_nil]
  have step0 : constraintStep sqrt [A, B] 0 =
      [(resolvePair sqrt (boundary sqrt A) B).1, (resolvePair sqrt (boundary sqrt A) B).2] := by
    simp [constraintStep, pairStep, hA, hr1]
  rw [step0]
  by_cases hB : B.HasPhysics = true
  · simp [constraintStep, hB, hr2]
  · have hB1 : B.HasPhysics = false := by simpa using hB
    simp [constraintStep, hB1]

theorem Vec2.normalize_vertical_neg (hs : IsSqrt sqrt) {y : K} (hy : y < 0) :
    Vec2.normalize sqrt ⟨0, y⟩ = ⟨0, -1⟩ := by
  have hl : sqrt (Vec2.dot ⟨0, y⟩ ⟨0, y⟩) = -y := by
    have := Vec2.length_vertical hs y
    rw [abs_of_neg hy] at this
    exact this
  simp only [Vec2.normalize, Vec2.inversesqrt, Vec2.scale, hl, zero_mul, Vec2.mk.injEq,
    true_and]
  have : -y ≠ 0 := by linarith
  field_simp

/-- The resolution of an overlapping pair on the vertical axis, `circleB` below
`circleA` and not heavier: `circleA` moves up and `circleB` down. -/
theorem resolvePair_vertical (hs : IsSqrt sqrt) (A B : Circle K)
    (hxA : A.Position.x = 0) (hxB : B.Position.x = 0)
    (hlt : B.Position.y < A.Position.y)
    (hov : A.Position.y - B.Position.y < A.Radius + B.Radius) (hm : B.Mass ≤ A.Mass) :
    (resolvePair sqrt A B).1.Position =
      ⟨0, A.Position.y + (A.Radius + B.Radius - (A.Position.y - B.Position.y)) *
        (B.Mass / A.Mass * (1 / 2))⟩ ∧
    (resolvePair sqrt A B).2.Position =
      ⟨0, B.Position.y - (A.Radius + B.Radius - (A.Position.y - B.Position.y)) *
        (1 - B.Mass / A.Mass * (1 / 2))⟩ := by
  have hsub : Vec2.sub B.Position A.Position = ⟨0, B.Position.y - A.Position.y⟩ := by
    simp only [Vec2.sub, hxA, hxB, sub_zero]
  have hneg : B.Position.y - A.Position.y < 0 := by linarith
  have hl : Vec2.length sqrt (Vec2.sub B.Position A.Position) =
      A.Position.y - B.Position.y := by
    rw [hsub, Vec2.length_vertical hs, abs_of_neg hneg]; ring
  obtain ⟨h1, h2⟩ := @resolvePair_overlap_ge K _ sqrt A B (by rw [hl]; exact hov) hm
  rw [h1, h2, hl, hsub, Vec2.normalize_vertical_neg hs hneg]
  simp only [Vec2.sub, Vec2.add, Vec2.scale, hxA, hxB, Vec2.mk.injEq]
  constructor <;> constructor <;> ring

end TwoCircles

/-! ### C3: two overlapping circles -/

section NonOverlap

variable {K : Type} [LinearOrderedField K] {sqrt : K → K}

/-- A fixed step on a store of two circles, the first with physics, nothing selected,
when the boundary constraint does not engage: the pair is resolved once, in the
first constraint iteration, and the later iterations change nothing. -/
theorem fixedStep_two_free (hs : IsSqrt sqrt) (off mouse : Vec2 K) (A B : Circle K)
    (hA : A.HasPhysics = true) (hmA : 0 < A.Mass) (hmB : 0 < B.Mass)
    (hne : (integrate A).Position ≠ (integrate B).Position)
    (hbA : Vec2.length sqrt (integrate A).Position < ConstraintRadius - A.Radius)
    (hbA1 : Vec2.length sqrt (resolvePair sqrt (integrate A) (integrate B)).1.Position <
      ConstraintRadius - A.Radius)
    (hbB1 : B.HasPhysics = true →
      Vec2.length sqrt (resolvePair sqrt (integrate A) (integrate B)).2.Position <
        ConstraintRadius - B.Radius) :
    fixedStep sqrt none off mouse [A, B] =
      [(resolvePair sqrt (integrate A) (integrate B)).1,
        (resolvePair sqrt (integrate A) (integrate B)).2] ∧
    A.Radius + B.Radius ≤
      Vec2.length sqrt (Vec2.sub (resolvePair sqrt (integrate A) (integrate B)).2.Position
        (resolvePair sqrt (integrate A) (integrate B)).1.Position) := by
  have hsep : A.Radius + B.Radius ≤
      Vec2.length sqrt (Vec2.sub (resolvePair sqrt (integrate A) (integrate B)).2.Position
        (resolvePair sqrt (integrate A) (integrate B)).1.Position) := by
    by_cases hov : Vec2.length sqrt (Vec2.sub (integrate B).Position (integrate A).Position) <
        (integrate A).Radius + (integrate B).Radius
    · rw [resolvePair_distance hs _ _ hne (by simpa using hmA) (by simpa using hmB) hov]
      simp
    · rw [resolvePair_no_overlap _ _ (not_lt.mp hov)]
      simpa using not_lt.mp hov
  have hiter1 : constraintIteration sqrt none off mouse [integrate A, integrate B] =
      [(resolvePair sqrt (integrate A) (integrate B)).1,
        (resolvePair sqrt (integrate A) (integrate B)).2] := by
    unfold constraintIteration pin
    rw [constraintPass_two _ _ (by simpa using hA),
      boundary_of_lt (integrate A) (by simpa using hbA)]
    by_cases hB : B.HasPhysics = true
    · rw [integrate_HasPhysics, if_pos hB, boundary_of_lt _ (by simpa using hbB1 hB)]
    · rw [integrate_HasPhysics, if_neg hB]
  have hfix : constraintIteration sqrt none off mouse
      [(resolvePair sqrt (integrate A) (integrate B)).1,
        (resolvePair sqrt (integrate A) (integrate B)).2] =
      [(resolvePair sqrt (integrate A) (integrate B)).1,
        (resolvePair sqrt (integrate A) (integrate B)).2] := by
    unfold constraintIteration pin
    rw [constraintPass_two _ _ (by simpa using hA),
      boundary_of_lt _ (by simpa using hbA1),
      resolvePair_no_overlap _ _ (by simpa using hsep)]
    by_cases hB : B.HasPhysics = true
    · rw [resolvePair_snd_HasPhysics, integrate_HasPhysics, if_pos hB,
        boundary_of_lt _ (by simpa using hbB1 hB)]
    · rw [resolvePair_snd_HasPhysics, integrate_HasPhysics, if_neg hB]
  refine ⟨?_, hsep⟩
  unfold fixedStep
  show (constraintIteration sqrt none off mouse)^[7 + 1] [integrate A, integrate B] = _
  rw [Function.iterate_succ_apply, hiter1, Function.iterate_fixed hfix]

/-- A constraint iteration keeps a pinched pair pinched: the pair is pushed apart to
`Radius + Radius`, and the boundary constraint on the second circle, applied last,
brings it back towards the first. -/
theorem constraintIteration_pinchedPair (hs : IsSqrt sqrt) (off mouse : Vec2 K)
    (cs : List (Circle K)) (h : PinchedPair cs) :
    PinchedPair (constraintIteration sqrt none off mouse cs) := by
  obtain ⟨A, B, rfl, hA, hB, hrA, hrB, hmA, hmB, hxA, hxB, hA0, hA1, hB1, hov⟩ := h
  have hposA : A.Position = ⟨0, A.Position.y⟩ := by rw [← hxA]
  have hlenA : Vec2.length sqrt A.Position = -A.Position.y := by
    rw [hposA, Vec2.length_vertical hs, abs_of_neg hA0]
  have hbA : boundary sqrt A = A :=
    boundary_of_lt A (by rw [hlenA, hrA, ConstraintRadius]; linarith)
  obtain ⟨h1, h2⟩ := resolvePair_vertical hs A B hxA hxB (by linarith)
    (by rw [hrA, hrB]; linarith) (by rw [hmA, hmB])
  rw [hrA, hrB, hmA, hmB] at h1 h2
  have hy2 : (resolvePair sqrt A B).2.Position.y < -(4 / 5) := by
    rw [h2]; simp only; linarith
  have hlen2 : Vec2.length sqrt (resolvePair sqrt A B).2.Position =
      -(resolvePair sqrt A B).2.Position.y := by
    rw [h2, Vec2.length_vertical hs, abs_of_neg (by linarith)]
  have hr2 : (resolvePair sqrt A B).2.Radius = 1 / 5 := by rw [resolvePair_snd_Radius, hrB]
  have hbB := @boundary_of_ge K _ sqrt (resolvePair sqrt A B).2
    (by rw [hlen2, hr2, ConstraintRadius]; linarith)
  have hden : 0 < -(resolvePair sqrt A B).2.Position.y + 1 / 5 := by linarith
  have hiter : constraintIteration sqrt none off mouse [A, B] =
      [(resolvePair sqrt A B).1, boundary sqrt (resolvePair sqrt A B).2] := by
    unfold constraintIteration pin
    rw [constraintPass_two A B hA, hbA, if_pos hB]
  rw [hiter]
  refine ⟨_, _, rfl, by simpa using hA, by simpa using hB, by simpa using hrA,
    by simpa using hrB, by simpa using hmA, by simpa using hmB, ?_, ?_, ?_, ?_, ?_, ?_⟩
  · rw [h1]
  · rw [hbB, hlen2, hr2, h2]; simp [Vec2.divScalar]
  · rw [h1]; simp only; linarith
  · rw [h1]; simp only; linarith
  · rw [hbB, hlen2, hr2]
    simp only [Vec2.divScalar]
    rw [div_lt_iff₀ hden]
    linarith
  · rw [hbB, hlen2, hr2]
    simp only [Vec2.divScalar]
    have hgt : (resolvePair sqrt A B).2.Position.y <
        (resolvePair sqrt A B).2.Position.y /
          (-(resolvePair sqrt A B).2.Position.y + 1 / 5) := by
      rw [lt_div_iff₀ hden]
      nlinarith
    have hy1 : (resolvePair sqrt A B).1.Position.y - (resolvePair sqrt A B).2.Position.y =
        2 / 5 := by
      rw [h1, h2]; simp only; ring
    linarith

/-- C3, refuted as stated: two dynamic circles of radius `1 / 5` and mass `1` at rest
at `(0, -3 / 5)` and `(0, -17 / 20)`, nothing selected, overlap, and they still
overlap after one fixed step. -/
theorem non_overlap_counterexample :
    Vec2.distance Real.sqrt (restingCircle ⟨0, -3 / 5⟩ (1 / 5) 1 : Circle ℝ).Position
        (restingCircle ⟨0, -17 / 20⟩ (1 / 5) 1 : Circle ℝ).Position <
      (restingCircle ⟨0, -3 / 5⟩ (1 / 5) 1 : Circle ℝ).Radius +
        (restingCircle ⟨0, -17 / 20⟩ (1 / 5) 1 : Circle ℝ).Radius ∧
    ∃ A B : Circle ℝ,
      fixedStep Real.sqrt none ⟨0, 0⟩ ⟨0, 0⟩
        [restingCircle ⟨0, -3 / 5⟩ (1 / 5) 1, restingCircle ⟨0, -17 / 20⟩ (1 / 5) 1] = [A, B] ∧
      Vec2.distance Real.sqrt A.Position B.Position < A.Radius + B.Radius := by
  constructor
  · simp only [restingCircle, Vec2.distance, Vec2.sub, sub_zero]
    rw [Vec2.length_vertical isSqrt_real, abs_of_neg (by norm_num)]
    norm_num
  · have h0 : PinchedPair ([restingCircle ⟨0, -3 / 5⟩ (1 / 5) 1,
        restingCircle ⟨0, -17 / 20⟩ (1 / 5) 1].map (integrate : Circle ℝ → Circle ℝ)) := by
      refine ⟨_, _, rfl, rfl, rfl, rfl, rfl, rfl, rfl, ?_, ?_, ?_, ?_, ?_, ?_⟩ <;>
        simp only [integrate, restingCircle, Vec2.add, Vec2.sub, Gravity, FixedUpdateTime] <;>
        norm_num
    have hn : ∀ (n : Nat) (cs : List (Circle ℝ)), PinchedPair cs →
        PinchedPair ((constraintIteration Real.sqrt none ⟨0, 0⟩ ⟨0, 0⟩)^[n] cs) := by
      intro n
      induction n with
      | zero => intro cs h; exact h
      | succ n ih =>
        intro cs h
        rw [Function.iterate_succ_apply]
        exact ih _ (constraintIteration_pinchedPair isSqrt_real _ _ cs h)
    obtain ⟨A, B, hAB, _, _, hrA, hrB, _, _, hxA, hxB, _, hA1, hB1, hov⟩ :=
      hn ConstraintIterations _ h0
    refine ⟨A, B, hAB, ?_⟩
    have hsub : Vec2.sub B.Position A.Position = ⟨0, B.Position.y - A.Position.y⟩ := by
      simp only [Vec2.sub, hxA, hxB, sub_zero]
    rw [Vec2.distance, hsub, Vec2.length_vertical isSqrt_real, abs_of_neg (by linarith), hrA,
      hrB]
    linarith

/-- C3, amended.  For a store of two physics-enabled circles of positive mass,
nothing selected, whose centres are distinct after integration and which stay clear
of the boundary (the first after integration, both after the resolution of the pair),
the fixed step leaves the circles where the first resolution of the pair puts them,
at a distance of at least `Radius + Radius`. -/
theorem two_circles_separated (hs : IsSqrt sqrt) (off mouse : Vec2 K) (A B : Circle K)
    (hA : A.HasPhysics = true) (hB : B.HasPhysics = true)
    (hmA : 0 < A.Mass) (hmB : 0 < B.Mass)
    (hne : (integrate A).Position ≠ (integrate B).Position)
    (hbA : Vec2.length sqrt (integrate A).Position < ConstraintRadius - A.Radius)
    (hbA1 : Vec2.length sqrt (resolvePair sqrt (integrate A) (integrate B)).1.Position <
      ConstraintRadius - A.Radius)
    (hbB1 : Vec2.length sqrt (resolvePair sqrt (integrate A) (integrate B)).2.Position <
      ConstraintRadius - B.Radius) :
    ∃ A1 B1 : Circle K, fixedStep sqrt none off mouse [A, B] = [A1, B1] ∧
      (A1, B1) = resolvePair sqrt (integrate A) (integrate B) ∧
      A1.HasPhysics = true ∧ B1.HasPhysics = true ∧
      A1.Radius + B1.Radius ≤ Vec2.distance sqrt A1.Position B1.Position := by
  obtain ⟨h1, h2⟩ := fixedStep_two_free hs off mouse A B hA hmA hmB hne hbA hbA1 (fun _ => hbB1)
  exact ⟨_, _, h1, rfl, by simpa using hA, by simpa using hB, by simpa using h2⟩

end NonOverlap

/-! ### C3 (instance), C8 and C9 -/

section PairInstances

/-- The two circles of radius `1 / 5` and mass `1` at rest at `(0, 1 / 10)` and
`(0, -1 / 10)`: after integration they are at `(0, 59 / 600)` and `(0, -61 / 600)`,
and the resolution of the pair puts them at `(0, 119 / 600)` and `(0, -121 / 600)`. -/
theorem resolvePair_sample :
    (integrate (restingCircle ⟨0, 1 / 10⟩ (1 / 5) 1 : Circle ℝ)).Position = ⟨0, 59 / 600⟩ ∧
    (integrate (restingCircle ⟨0, -1 / 10⟩ (1 / 5) 1 : Circle ℝ)).Position = ⟨0, -61 / 600⟩ ∧
    (resolvePair Real.sqrt (integrate (restingCircle ⟨0, 1 / 10⟩ (1 / 5) 1))
      (integrate (restingCircle ⟨0, -1 / 10⟩ (1 / 5) 1))).1.Position = ⟨0, 119 / 600⟩ ∧
    (resolvePair Real.sqrt (integrate (restingCircle ⟨0, 1 / 10⟩ (1 / 5) 1))
      (integrate (restingCircle ⟨0, -1 / 10⟩ (1 / 5) 1))).2.Position = ⟨0, -121 / 600⟩ := by
  have hA : (integrate (restingCircle ⟨0, 1 / 10⟩ (1 / 5) 1 : Circle ℝ)).Position =
      ⟨0, 59 / 600⟩ := by
    simp only [integrate, restingCircle, Vec2.add, Vec2.sub, Gravity, FixedUpdateTime]
    norm_num
  have hB : (integrate (restingCircle ⟨0, -1 / 10⟩ (1 / 5) 1 : Circle ℝ)).Position =
      ⟨0, -61 / 600⟩ := by
    simp only [integrate, restingCircle, Vec2.add, Vec2.sub, Gravity, FixedUpdateTime]
    norm_num
  obtain ⟨h1, h2⟩ := resolvePair_vertical isSqrt_real
    (integrate (restingCircle ⟨0, 1 / 10⟩ (1 / 5) 1 : Circle ℝ))
    (integrate (restingCircle ⟨0, -1 / 10⟩ (1 / 5) 1 : Circle ℝ))
    (by rw [hA]) (by rw [hB]) (by rw [hA, hB]; norm_num)
    (by rw [hA, hB]; simp only [integrate_Radius, restingCircle]; norm_num)
    (by simp only [integrate_Mass, restingCircle]; exact le_refl _)
  refine ⟨hA, hB, ?_, ?_⟩
  · rw [h1, hA, hB]; simp only [integrate_Radius, integrate_Mass, restingCircle]; norm_num
  · rw [h2, hA, hB]; simp only [integrate_Radius, integrate_Mass, restingCircle]; norm_num

/-- C3 amended, at two circles of radius `1 / 5` and mass `1` at rest at `(0, 1 / 10)`
and `(0, -1 / 10)`. -/
theorem two_circles_separated_witness :
    IsSqrt Real.sqrt ∧
    (integrate (restingCircle ⟨0, 1 / 10⟩ (1 / 5) 1 : Circle ℝ)).Position ≠
      (integrate (restingCircle ⟨0, -1 / 10⟩ (1 / 5) 1 : Circle ℝ)).Position ∧
    Vec2.length Real.sqrt (integrate (restingCircle ⟨0, 1 / 10⟩ (1 / 5) 1 : Circle ℝ)).Position <
      ConstraintRadius - (restingCircle ⟨0, 1 / 10⟩ (1 / 5) 1 : Circle ℝ).Radius ∧
    Vec2.length Real.sqrt
      (resolvePair Real.sqrt (integrate (restingCircle ⟨0, 1 / 10⟩ (1 / 5) 1))
        (integrate (restingCircle ⟨0, -1 / 10⟩ (1 / 5) 1))).1.Position <
      ConstraintRadius - (restingCircle ⟨0, 1 / 10⟩ (1 / 5) 1 : Circle ℝ).Radius ∧
    Vec2.length Real.sqrt
      (resolvePair Real.sqrt (integrate (restingCircle ⟨0, 1 / 10⟩ (1 / 5) 1))
        (integrate (restingCircle ⟨0, -1 / 10⟩ (1 / 5) 1))).2.Position <
      ConstraintRadius - (restingCircle ⟨0, -1 / 10⟩ (1 / 5) 1 : Circle ℝ).Radius ∧
    ∃ A1 B1 : Circle ℝ,
      fixedStep Real.sqrt none ⟨0, 0⟩ ⟨0, 0⟩
        [restingCircle ⟨0, 1 / 10⟩ (1 / 5) 1, restingCircle ⟨0, -1 / 10⟩ (1 / 5) 1] =
          [A1, B1] ∧
      (A1, B1) = resolvePair Real.sqrt (integrate (restingCircle ⟨0, 1 / 10⟩ (1 / 5) 1))
        (integrate (restingCircle ⟨0, -1 / 10⟩ (1 / 5) 1)) ∧
      A1.HasPhysics = true ∧ B1.HasPhysics = true ∧
      A1.Radius + B1.Radius ≤ Vec2.distance Real.sqrt A1.Position B1.Position := by
  obtain ⟨hA, hB, h1, h2⟩ := resolvePair_sample
  have hne : (integrate (restingCircle ⟨0, 1 / 10⟩ (1 / 5) 1 : Circle ℝ)).Position ≠
      (integrate (restingCircle ⟨0, -1 / 10⟩ (1 / 5) 1 : Circle ℝ)).Position := by
    rw [hA, hB]
    intro h
    have hy := congrArg Vec2.y h
    norm_num at hy
  have hbA : Vec2.length Real.sqrt
      (integrate (restingCircle ⟨0, 1 / 10⟩ (1 / 5) 1 : Circle ℝ)).Position <
      ConstraintRadius - (restingCircle ⟨0, 1 / 10⟩ (1 / 5) 1 : Circle ℝ).Radius := by
    rw [hA, Vec2.length_vertical isSqrt_real, abs_of_pos (by norm_num)]
    simp only [restingCircle, ConstraintRadius]; norm_num
  have hbA1 : Vec2.length Real.sqrt
      (resolvePair Real.sqrt (integrate (restingCircle ⟨0, 1 / 10⟩ (1 / 5) 1))
        (integrate (restingCircle ⟨0, -1 / 10⟩ (1 / 5) 1))).1.Position <
      ConstraintRadius - (restingCircle ⟨0, 1 / 10⟩ (1 / 5) 1 : Circle ℝ).Radius := by
    rw [h1, Vec2.length_vertical isSqrt_real, abs_of_pos (by norm_num)]
    simp only [restingCircle, ConstraintRadius]; norm_num
  have hbB1 : Vec2.length Real.sqrt
      (resolvePair Real.sqrt (integrate (restingCircle ⟨0, 1 / 10⟩ (1 / 5) 1))
        (integrate (restingCircle ⟨0, -1 / 10⟩ (1 / 5) 1))).2.Position <
      ConstraintRadius - (restingCircle ⟨0, -1 / 10⟩ (1 / 5) 1 : Circle ℝ).Radius := by
    rw [h2, Vec2.length_vertical isSqrt_real, abs_of_neg (by norm_num)]
    simp only [restingCircle, ConstraintRadius]; norm_num
  exact ⟨isSqrt_real, hne, hbA, hbA1, hbB1,
    two_circles_separated isSqrt_real ⟨0, 0⟩ ⟨0, 0⟩ _ _ rfl rfl
      (by simp only [restingCircle]; norm_num) (by simp only [restingCircle]; norm_num)
      hne hbA hbA1 hbB1⟩

/-- C8 at a failing input: a dynamic circle of radius `1 / 5` at rest at `(0, 0)`
followed in the store by a circle without physics of radius `1 / 5` at `(0, -3 / 10)`.
One fixed step, run by `Update` on `dt = FixedUpdateTime32`, moves the circle without
physics from `(0, -3 / 10)` to `(0, -421 / 1200)`. -/
theorem scenery_displaced :
    (sceneryCircle ⟨0, -3 / 10⟩ (1 / 5) 1 : Circle ℝ).HasPhysics = false ∧
    (sceneryCircle ⟨0, -3 / 10⟩ (1 / 5) 1 : Circle ℝ).Position = ⟨0, -3 / 10⟩ ∧
    (fixedStep Real.sqrt none ⟨0, 0⟩ ⟨0, 0⟩
      [restingCircle ⟨0, 0⟩ (1 / 5) 1, sceneryCircle ⟨0, -3 / 10⟩ (1 / 5) 1]).map
        Circle.Position = [(⟨0, 59 / 1200⟩ : Vec2 ℝ), ⟨0, -421 / 1200⟩] ∧
    (∀ fuel, 2 ≤ fuel →
      (Update Real.sqrt fuel FixedUpdateTime32
        ⟨0, [restingCircle ⟨0, 0⟩ (1 / 5) 1, sceneryCircle ⟨0, -3 / 10⟩ (1 / 5) 1], none,
          ⟨0, 0⟩, ⟨0, 0⟩⟩).map (fun st => st.Circles.map Circle.Position) =
        some [(⟨0, 59 / 1200⟩ : Vec2 ℝ), ⟨0, -421 / 1200⟩]) := by
  have hA : (integrate (restingCircle ⟨0, 0⟩ (1 / 5) 1 : Circle ℝ)).Position =
      ⟨0, -1 / 600⟩ := by
    simp only [integrate, restingCircle, Vec2.add, Vec2.sub, Gravity, FixedUpdateTime]
    norm_num
  have hB : integrate (sceneryCircle ⟨0, -3 / 10⟩ (1 / 5) 1 : Circle ℝ) =
      sceneryCircle ⟨0, -3 / 10⟩ (1 / 5) 1 := integrate_of_not_HasPhysics rfl
  have hBp : (sceneryCircle ⟨0, -3 / 10⟩ (1 / 5) 1 : Circle ℝ).Position = ⟨0, -3 / 10⟩ := rfl
  obtain ⟨h1, h2⟩ := resolvePair_vertical isSqrt_real
    (integrate (restingCircle ⟨0, 0⟩ (1 / 5) 1 : Circle ℝ))
    (sceneryCircle ⟨0, -3 / 10⟩ (1 / 5) 1 : Circle ℝ)
    (by rw [hA]) rfl (by rw [hA, hBp]; norm_num)
    (by rw [hA, hBp]; simp only [integrate_Radius, restingCircle, sceneryCircle]; norm_num)
    (by simp only [integrate_Mass, restingCircle, sceneryCircle]; exact le_refl _)
  have h1v : (resolvePair Real.sqrt (integrate (restingCircle ⟨0, 0⟩ (1 / 5) 1 : Circle ℝ))
      (sceneryCircle ⟨0, -3 / 10⟩ (1 / 5) 1)).1.Position = ⟨0, 59 / 1200⟩ := by
    rw [h1, hA, hBp]
    simp only [integrate_Radius, integrate_Mass, restingCircle, sceneryCircle]; norm_num
  have h2v : (resolvePair Real.sqrt (integrate (restingCircle ⟨0, 0⟩ (1 / 5) 1 : Circle ℝ))
      (sceneryCircle ⟨0, -3 / 10⟩ (1 / 5) 1)).2.Position = ⟨0, -421 / 1200⟩ := by
    rw [h2, hA, hBp]
    simp only [integrate_Radius, integrate_Mass, restingCircle, sceneryCircle]; norm_num
  have hstep := (fixedStep_two_free isSqrt_real ⟨0, 0⟩ ⟨0, 0⟩
    (restingCircle ⟨0, 0⟩ (1 / 5) 1 : Circle ℝ) (sceneryCircle ⟨0, -3 / 10⟩ (1 / 5) 1) rfl
    (by simp only [restingCircle]; norm_num) (by simp only [sceneryCircle]; norm_num)
    (by
      rw [hA, hB, hBp]
      intro h
      have hy := congrArg Vec2.y h
      norm_num at hy)
    (by
      rw [hA, Vec2.length_vertical isSqrt_real, abs_of_neg (by norm_num)]
      simp only [restingCircle, ConstraintRadius]; norm_num)
    (by
      rw [hB, h1v, Vec2.length_vertical isSqrt_real, abs_of_pos (by norm_num)]
      simp only [restingCircle, ConstraintRadius]; norm_num)
    (fun h => absurd h (by simp [sceneryCircle]))).1
  rw [hB] at hstep
  have hmap : (fixedStep Real.sqrt none ⟨0, 0⟩ ⟨0, 0⟩
      [restingCircle ⟨0, 0⟩ (1 / 5) 1, sceneryCircle ⟨0, -3 / 10⟩ (1 / 5) 1]).map
        Circle.Position = [(⟨0, 59 / 1200⟩ : Vec2 ℝ), ⟨0, -421 / 1200⟩] := by
    rw [hstep, List.map_cons, List.map_singleton, h1v, h2v]
  refine ⟨rfl, rfl, hmap, ?_⟩
  intro fuel hfuel
  obtain ⟨n, rfl⟩ : ∃ n, fuel = n + 2 := ⟨fuel - 2, by omega⟩
  obtain ⟨_, _, _, _, h5, h6⟩ := round32_samples_exact (K := ℝ)
  unfold Update
  simp only
  rw [h5, updateLoop_step _ _ _ _ _ _ _ (le_refl _), h6,
    updateLoop_exit _ _ _ _ _ _ _ FixedUpdateTime32_pos]
  simpa using hmap

/-- C9 at a failing input: two dynamic circles of radius `1 / 10` with the same
centre `(0, 0)`.  The pair is resolved (`distance = 0 < Radius + Radius`), and
`glm::normalize` divides by `sqrt(0) = 0`: it has no value.  In the model, where
`x / 0 = 0`, the direction is the zero vector, not a unit vector, and the pair is
left with coincident centres. -/
theorem coincident_centres_divide_by_zero :
    Vec2.length Real.sqrt (Vec2.sub (restingCircle ⟨0, 0⟩ (1 / 10) 1 : Circle ℝ).Position
        (restingCircle ⟨0, 0⟩ (1 / 10) 1 : Circle ℝ).Position) <
      (restingCircle ⟨0, 0⟩ (1 / 10) 1 : Circle ℝ).Radius +
        (restingCircle ⟨0, 0⟩ (1 / 10) 1 : Circle ℝ).Radius ∧
    Vec2.inversesqrtChecked Real.sqrt
      (Vec2.dot (Vec2.sub (restingCircle ⟨0, 0⟩ (1 / 10) 1 : Circle ℝ).Position
        (restingCircle ⟨0, 0⟩ (1 / 10) 1 : Circle ℝ).Position)
        (Vec2.sub (restingCircle ⟨0, 0⟩ (1 / 10) 1 : Circle ℝ).Position
        (restingCircle ⟨0, 0⟩ (1 / 10) 1 : Circle ℝ).Position)) = none ∧
    Vec2.normalizeChecked Real.sqrt
      (Vec2.sub (restingCircle ⟨0, 0⟩ (1 / 10) 1 : Circle ℝ).Position
        (restingCircle ⟨0, 0⟩ (1 / 10) 1 : Circle ℝ).Position) = none ∧
    Vec2.length Real.sqrt (Vec2.normalize Real.sqrt
      (Vec2.sub (restingCircle ⟨0, 0⟩ (1 / 10) 1 : Circle ℝ).Position
        (restingCircle ⟨0, 0⟩ (1 / 10) 1 : Circle ℝ).Position)) ≠ 1 ∧
    (resolvePair Real.sqrt (restingCircle ⟨0, 0⟩ (1 / 10) 1)
        (restingCircle ⟨0, 0⟩ (1 / 10) 1)).1.Position =
      (resolvePair Real.sqrt (restingCircle ⟨0, 0⟩ (1 / 10) 1)
        (restingCircle ⟨0, 0⟩ (1 / 10) 1)).2.Position := by
  have hsub : Vec2.sub (restingCircle ⟨0, 0⟩ (1 / 10) 1 : Circle ℝ).Position
      (restingCircle ⟨0, 0⟩ (1 / 10) 1 : Circle ℝ).Position = ⟨0, 0⟩ := by
    simp only [restingCircle, Vec2.sub, sub_self]
  have hdot : Vec2.dot (⟨0, 0⟩ : Vec2 ℝ) ⟨0, 0⟩ = 0 := by simp [Vec2.dot]
  have hl : Vec2.length Real.sqrt (⟨0, 0⟩ : Vec2 ℝ) = 0 := by
    rw [Vec2.length_vertical isSqrt_real, abs_zero]
  have hn : Vec2.normalize Real.sqrt (⟨0, 0⟩ : Vec2 ℝ) = ⟨0, 0⟩ := by
    simp [Vec2.normalize, Vec2.scale]
  have hov : Vec2.length Real.sqrt
      (Vec2.sub (restingCircle ⟨0, 0⟩ (1 / 10) 1 : Circle ℝ).Position
        (restingCircle ⟨0, 0⟩ (1 / 10) 1 : Circle ℝ).Position) <
      (restingCircle ⟨0, 0⟩ (1 / 10) 1 : Circle ℝ).Radius +
        (restingCircle ⟨0, 0⟩ (1 / 10) 1 : Circle ℝ).Radius := by
    rw [hsub, hl]; simp only [restingCircle]; norm_num
  refine ⟨hov, ?_, ?_, ?_, ?_⟩
  · rw [hsub, hdot]; simp [Vec2.inversesqrtChecked]
  · rw [hsub]; simp [Vec2.normalizeChecked, Vec2.inversesqrtChecked, hdot]
  · rw [hsub, hn, hl]; norm_num
  · obtain ⟨h1, h2⟩ := @resolvePair_overlap_ge ℝ _ Real.sqrt _ _ hov (le_refl _)
    rw [h1, h2, hsub, hn]
    simp [restingCircle, Vec2.sub, Vec2.add, Vec2.scale]

end PairInstances

/-! ### C11: the integration pass and `PrevPosition` -/

section Integration

theorem List.set_of_getElem? {α : Type} :
    ∀ (l : List α) (i : Nat) (a : α), l[i]? = some a → l.set i a = l := by
  intro l
  induction l with
  | nil => intro i a _; rfl
  | cons x xs ih =>
    intro i a h
    cases i with
    | zero =>
      simp only [List.getElem?_cons_zero, Option.some.injEq] at h
      rw [List.set_cons_zero, h]
    | succ i =>
      rw [List.getElem?_cons_succ] at h
      rw [List.set_cons_succ, ih i a h]

theorem List.foldl_preserves {α β γ : Type} (g : β → γ) (step : β → α → β)
    (h : ∀ acc x, g (step acc x) = g acc) (l : List α) :
    ∀ init : β, g (l.foldl step init) = g init := by
  induction l with
  | nil => intro init; rfl
  | cons x xs ih => intro init; rw [List.foldl_cons, ih, h]

/-- Writing back a circle with the same `PrevPosition` leaves the list of the
`PrevPosition` fields as it is. -/
theorem map_PrevPosition_set {K : Type} (cs : List (Circle K)) (i : Nat) (a b : Circle K)
    (h : cs[i]? = some a) (hb : b.PrevPosition = a.PrevPosition) :
    (cs.set i b).map Circle.PrevPosition = cs.map Circle.PrevPosition := by
  rw [List.map_set, hb]
  exact List.set_of_getElem? _ i _ (by rw [List.getElem?_map, h]; rfl)

variable {K : Type} [LinearOrderedField K]

theorem integrate_eq_integrateWith (c : Circle K) : integrate c = integrateWith Gravity c := rfl

theorem pin_map_PrevPosition (sel : Option Nat) (off mouse : Vec2 K) (cs : List (Circle K)) :
    (pin sel off mouse cs).map Circle.PrevPosition = cs.map Circle.PrevPosition := by
  cases sel with
  | none => rfl
  | some s =>
    unfold pin
    simp only
    split
    · rfl
    · next c h => exact map_PrevPosition_set cs s c _ h rfl

theorem pairStep_map_PrevPosition (sqrt : K → K) (i : Nat) (cs : List (Circle K)) (j : Nat) :
    (pairStep sqrt i cs j).map Circle.PrevPosition = cs.map Circle.PrevPosition := by
  unfold pairStep
  cases hi : cs[i]? with
  | none => rfl
  | some A =>
    cases hj : cs[j]? with
    | none => rfl
    | some B =>
      simp only
      split
      · rfl
      · rw [List.map_set, List.map_set, resolvePair_fst_PrevPosition,
          resolvePair_snd_PrevPosition,
          List.set_of_getElem? _ i _ (by rw [List.getElem?_map, hi]; rfl),
          List.set_of_getElem? _ j _ (by rw [List.getElem?_map, hj]; rfl)]

theorem constraintStep_map_PrevPosition (sqrt : K → K) (cs : List (Circle K)) (i : Nat) :
    (constraintStep sqrt cs i).map Circle.PrevPosition = cs.map Circle.PrevPosition := by
  unfold constraintStep
  cases hi : cs[i]? with
  | none => rfl
  | some A =>
    simp only
    split
    · rfl
    · rw [List.foldl_preserves (fun l => l.map Circle.PrevPosition) (pairStep sqrt i)
        (fun acc j => pairStep_map_PrevPosition sqrt i acc j)]
      exact map_PrevPosition_set cs i A _ hi (boundary_PrevPosition sqrt A)

/-- A constraint iteration does not write `PrevPosition`. -/
theorem constraintIteration_map_PrevPosition (sqrt : K → K) (sel : Option Nat)
    (off mouse : Vec2 K) (cs : List (Circle K)) :
    (constraintIteration sqrt sel off mouse cs).map Circle.PrevPosition =
      cs.map Circle.PrevPosition := by
  unfold constraintIteration constraintPass
  rw [List.foldl_preserves (fun l => l.map Circle.PrevPosition) (constraintStep sqrt)
    (fun acc i => constraintStep_map_PrevPosition sqrt acc i)]
  exact pin_map_PrevPosition sel off mouse cs

theorem iterate_constraintIteration_map_PrevPosition (sqrt : K → K) (sel : Option Nat)
    (off mouse : Vec2 K) (n : Nat) :
    ∀ cs : List (Circle K),
      ((constraintIteration sqrt sel off mouse)^[n] cs).map Circle.PrevPosition =
        cs.map Circle.PrevPosition := by
  induction n with
  | zero => intro cs; rfl
  | succ n ih =>
    intro cs
    rw [Function.iterate_succ_apply, ih, constraintIteration_map_PrevPosition]

/-- C11 (Verlet integration pass).  For a physics-enabled circle of the store, with
position `p` and previous position `q`, the integration pass sets `PrevPosition` to
`p` and `Position` to `2p - q - (0, Gravity * FixedUpdateTime)`, where
`Gravity = 1 / 10` and `FixedUpdateTime = 1 / 60`; a circle at rest is displaced by
the gravity term only, and not at all under zero gravity; no constraint iteration
writes `PrevPosition`; and at the end of the fixed step the `PrevPosition` of the
circle is the `Position` it had before the step. -/
theorem verlet_integration_pass (sqrt : K → K) (sel : Option Nat) (off mouse : Vec2 K)
    (cs : List (Circle K)) (i : Nat) (c : Circle K)
    (hget : cs[i]? = some c) (hc : c.HasPhysics = true) :
    (integrate c).PrevPosition = c.Position ∧
    (integrate c).Position =
      ⟨2 * c.Position.x - c.PrevPosition.x,
        2 * c.Position.y - c.PrevPosition.y - Gravity * FixedUpdateTime⟩ ∧
    (Gravity : K) = 1 / 10 ∧ (FixedUpdateTime : K) = 1 / 60 ∧
    (c.PrevPosition = c.Position →
      (integrate c).Position = ⟨c.Position.x, c.Position.y - Gravity * FixedUpdateTime⟩ ∧
      (integrateWith 0 c).Position = c.Position) ∧
    (cs.map integrate)[i]? = some (integrate c) ∧
    (∀ cs1 : List (Circle K),
      (constraintIteration sqrt sel off mouse cs1).map Circle.PrevPosition =
        cs1.map Circle.PrevPosition) ∧
    ((fixedStep sqrt sel off mouse cs)[i]?).map Circle.PrevPosition = some c.Position := by
  have hprev : (integrate c).PrevPosition = c.Position := by
    rw [integrate_of_HasPhysics c hc]
  have hpos : (integrate c).Position =
      ⟨2 * c.Position.x - c.PrevPosition.x,
        2 * c.Position.y - c.PrevPosition.y - Gravity * FixedUpdateTime⟩ := by
    rw [integrate_of_HasPhysics c hc, Vec2.eq_iff]
    constructor <;> simp only <;> ring
  refine ⟨hprev, hpos, rfl, rfl, ?_, ?_, constraintIteration_map_PrevPosition sqrt sel off mouse,
    ?_⟩
  · intro hrest
    constructor
    · rw [hpos, hrest, Vec2.eq_iff]
      constructor <;> simp only <;> ring
    · simp only [integrateWith, hc, hrest, Vec2.add, Vec2.sub, Bool.not_true,
        Bool.false_eq_true, if_false, sub_self, add_zero, zero_mul, sub_zero]
  · rw [List.getElem?_map, hget]; rfl
  · rw [← List.getElem?_map]
    unfold fixedStep
    rw [iterate_constraintIteration_map_PrevPosition, List.getElem?_map, List.getElem?_map,
      hget]
    simp only [Option.map_some', hprev]

/-- C11 at the store holding the background circle and a circle at `(0, 0)` with
previous position `(-1 / 100, 1 / 100)`, nothing selected. -/
theorem verlet_integration_pass_witness :
    ([backgroundCircle, dynamicCircle ⟨0, 0⟩ ⟨-1 / 100, 1 / 100⟩ (1 / 10) 1] :
      List (Circle ℝ))[1]? =
      some (dynamicCircle ⟨0, 0⟩ ⟨-1 / 100, 1 / 100⟩ (1 / 10) 1 : Circle ℝ) ∧
    (dynamicCircle ⟨0, 0⟩ ⟨-1 / 100, 1 / 100⟩ (1 / 10) 1 : Circle ℝ).HasPhysics = true ∧
    (integrate (dynamicCircle ⟨0, 0⟩ ⟨-1 / 100, 1 / 100⟩ (1 / 10) 1 : Circle ℝ)).PrevPosition =
      (dynamicCircle ⟨0, 0⟩ ⟨-1 / 100, 1 / 100⟩ (1 / 10) 1 : Circle ℝ).Position ∧
    (integrate (dynamicCircle ⟨0, 0⟩ ⟨-1 / 100, 1 / 100⟩ (1 / 10) 1 : Circle ℝ)).Position =
      ⟨2 * (dynamicCircle ⟨0, 0⟩ ⟨-1 / 100, 1 / 100⟩ (1 / 10) 1 : Circle ℝ).Position.x -
          (dynamicCircle ⟨0, 0⟩ ⟨-1 / 100, 1 / 100⟩ (1 / 10) 1 : Circle ℝ).PrevPosition.x,
        2 * (dynamicCircle ⟨0, 0⟩ ⟨-1 / 100, 1 / 100⟩ (1 / 10) 1 : Circle ℝ).Position.y -
          (dynamicCircle ⟨0, 0⟩ ⟨-1 / 100, 1 / 100⟩ (1 / 10) 1 : Circle ℝ).PrevPosition.y -
          Gravity * FixedUpdateTime⟩ ∧
    ((fixedStep Real.sqrt none ⟨0, 0⟩ ⟨0, 0⟩
      [backgroundCircle, dynamicCircle ⟨0, 0⟩ ⟨-1 / 100, 1 / 100⟩ (1 / 10) 1])[1]?).map
        Circle.PrevPosition =
      some (dynamicCircle ⟨0, 0⟩ ⟨-1 / 100, 1 / 100⟩ (1 / 10) 1 : Circle ℝ).Position := by
  have h := verlet_integration_pass Real.sqrt none ⟨0, 0⟩ ⟨0, 0⟩
    [backgroundCircle, dynamicCircle ⟨0, 0⟩ ⟨-1 / 100, 1 / 100⟩ (1 / 10) 1] 1
    (dynamicCircle ⟨0, 0⟩ ⟨-1 / 100, 1 / 100⟩ (1 / 10) 1 : Circle ℝ) rfl rfl
  exact ⟨rfl, rfl, h.1, h.2.1, h.2.2.2.2.2.2.2⟩

end Integration

/-! ### C12: contraction of the overshoot -/

section Contraction

variable {K : Type} [LinearOrderedField K] {sqrt : K → K}

end Contraction

/-! ### C2: boundary containment -/

section ContainmentResidual

variable {K : Type} [LinearOrderedField K] {sqrt : K → K}

end ContainmentResidual

end VerletPhysics
